import Mathlib

/-!
Shallow embedding of the Chakra backend's iteration controller and its
collaborators:

* `src/backend/evaluation/evaluator.py` — the scoring engine;
* `src/backend/orchestrator.py` (`Orchestrator.process`) — aggregate mode;
* `src/backend/api.py` (`generate_process_events`) — live (SSE) mode;
* `src/backend/agents/smriti.py` (`Smriti.store`) — the memory store;
* `src/backend/utils/background_tasks.py` (`run_background_task`).

Python floats are modelled by `ℚ` (all scores in the source are small
decimal combinations where no claim depends on binary rounding), remote
adapter calls by `Except String`-valued scripts indexed by the 1-based
round number, and the regular-expression feature tests of the evaluator by
Boolean inputs (only the truth value of a regex match ever enters the
arithmetic).  `.strip()` normalisation is applied identically to the same
underlying adapter text in both delivery modes and is therefore omitted.
-/

namespace Chakra

/-! ### Evaluator (src/backend/evaluation/evaluator.py)

`Evaluator.evaluate_code` starts every dimension at 0.5, adds 0.2 to
`completeness` when the solution has a `def `/`function `/`class ` marker,
adds 0.1 to `quality` for each of the four `code_patterns` regexes that
match and 0.1 more for an import line, clamps each dimension at 1.0 and
returns the weighted total `0.4*correctness + 0.3*quality +
0.3*completeness`.  The regex matches enter only as Booleans, which is how
they are represented here. -/

structure CodeScores where
  correctness : ℚ
  quality : ℚ
  completeness : ℚ
  total : ℚ
  deriving Repr, DecidableEq

def evaluate_code (hasStructure hasComments hasDocstrings hasErrorHandling
    hasTypeHints hasImports : Bool) : CodeScores :=
  let correctness : ℚ := 1/2
  let completeness : ℚ := if hasStructure then 1/2 + 2/10 else 1/2
  let q1 : ℚ := if hasComments then 1/2 + 1/10 else 1/2
  let q2 : ℚ := if hasDocstrings then q1 + 1/10 else q1
  let q3 : ℚ := if hasErrorHandling then q2 + 1/10 else q2
  let q4 : ℚ := if hasTypeHints then q3 + 1/10 else q3
  let q5 : ℚ := if hasImports then q4 + 1/10 else q4
  let correctnessN := min 1 correctness
  let qualityN := min 1 q5
  let completenessN := min 1 completeness
  { correctness := correctnessN
    quality := qualityN
    completeness := completenessN
    total := correctnessN * (4/10) + qualityN * (3/10) + completenessN * (3/10) }

/-- `Evaluator.evaluate_rag_answer`: with no chunks every dimension stays at
its initial 0.5 (including `total`, which is returned without being
recomputed).  Otherwise `grounding` is replaced by
`min 1 (overlap/total_unique * 2)` when `total_unique > 0`, gets `+0.2` for a
citation-looking regex match, `clarity` gets `+0.2` for more than three
lines and `+0.1` for markdown, each is clamped at 1 and the total is
`0.5*grounding + 0.3*clarity + 0.2*completeness`. -/

structure RagScores where
  grounding : ℚ
  clarity : ℚ
  completeness : ℚ
  total : ℚ
  deriving Repr, DecidableEq

def evaluate_rag_answer (hasChunks : Bool) (overlap totalUnique : Nat)
    (hasCitation : Bool) (lineCount : Nat) (hasMarkdown : Bool) : RagScores :=
  if hasChunks = false then
    { grounding := 1/2, clarity := 1/2, completeness := 1/2, total := 1/2 }
  else
    let g1 : ℚ := if 0 < totalUnique then min 1 ((overlap : ℚ) / (totalUnique : ℚ) * 2) else 1/2
    let g2 : ℚ := if hasCitation then g1 + 2/10 else g1
    let c1 : ℚ := if 3 < lineCount then 1/2 + 2/10 else 1/2
    let c2 : ℚ := if hasMarkdown then c1 + 1/10 else c1
    let grounding := min 1 g2
    let clarity := min 1 c2
    let completeness := min 1 ((1 : ℚ)/2)
    { grounding := grounding
      clarity := clarity
      completeness := completeness
      total := grounding * (5/10) + clarity * (3/10) + completeness * (2/10) }

/-- `Evaluator.evaluate`: dispatch on `is_code`, returning the `total` entry
of the dictionary produced by the selected routine. -/
def evaluateTotal (is_code : Bool) (hasStructure hasComments hasDocstrings
    hasErrorHandling hasTypeHints hasImports : Bool) (hasChunks : Bool)
    (overlap totalUnique : Nat) (hasCitation : Bool) (lineCount : Nat)
    (hasMarkdown : Bool) : ℚ :=
  if is_code then
    (evaluate_code hasStructure hasComments hasDocstrings hasErrorHandling
      hasTypeHints hasImports).total
  else
    (evaluate_rag_answer hasChunks overlap totalUnique hasCitation lineCount
      hasMarkdown).total

/-! ### Data model

`IterationData` mirrors the per-round dictionary built by
`Orchestrator.process`; `LiveIterationData` mirrors the richer per-round
dictionary built by `generate_process_events` (which additionally scores
the Yantra draft and records two improvement deltas).  Remote agents are
modelled as scripts from the 1-based round number to either a reply or an
exception message; the Yantra generation is a token stream (aggregate mode
consumes it joined, mirroring the non-streaming call returning the same
content).  `Adapters.score` stands for
`evaluator.evaluate(solution, task, is_code, rag_chunks)["total"]`, a pure
function of the solution text once the task/flags are fixed. -/

structure IterationData where
  iteration : Nat
  yantra_output : String
  sutra_critique : String
  agni_output : String
  score : ℚ
  improvement : ℚ
  deriving Repr, DecidableEq

structure LiveIterationData where
  iteration : Nat
  yantra_output : String
  yantra_score : ℚ
  sutra_critique : String
  agni_output : String
  agni_score : ℚ
  score : ℚ
  improvement : ℚ
  iteration_improvement : ℚ
  deriving Repr, DecidableEq

structure Adapters where
  yantra : Nat → Except String (List String)
  sutra : Nat → Except String String
  agni : Nat → Except String String
  score : String → ℚ

def joinTokens (ts : List String) : String := ts.foldl (fun acc t => acc ++ t) ""

/-- Score of `iterations[-1]` read before the current round is appended
(the previous round), defaulting to 0 on an empty history. -/
def prevScore (l : List IterationData) : ℚ :=
  ((l.getLast?).map IterationData.score).getD 0

/-- Value of `iterations[-1].get("agni_score", iterations[-1].get("score", 0.0))`. -/
def lastLiveScore (l : List LiveIterationData) : ℚ :=
  ((l.getLast?).map LiveIterationData.agni_score).getD 0

/-! ### Aggregate mode: Orchestrator.process (src/backend/orchestrator.py) -/

structure SessionResult where
  final_solution : Option String
  final_score : ℚ
  iterations : List IterationData
  total_iterations : Nat
  deriving Repr, DecidableEq

/-- One `Smriti.store` request as issued by either loop: the task, the
session's `best_solution` and `best_score`. -/
structure StoreCall where
  task : String
  solution : Option String
  quality_score : ℚ
  deriving Repr, DecidableEq

/-- The `for iteration in range(max_iterations)` loop of
`Orchestrator.process` (orchestrator.py lines 68-137).  `i` is the 1-based
round number, `fuel` the remaining iterations.  Any agent exception
propagates (there is no try/except inside the aggregate loop).  The plateau
check compares the current score against `iterations[-2]["score"]`, read
after the append — i.e. against the previous round's score. -/
def orchestratorLoop (A : Adapters) (minImp : ℚ) :
    Nat → Nat → List IterationData → ℚ → Option String →
    Except String (List IterationData × ℚ × Option String)
  | 0, _, acc, best, bestSol => .ok (acc, best, bestSol)
  | fuel+1, i, acc, best, bestSol =>
    match A.yantra i with
    | .error e => .error e
    | .ok tokens =>
      match A.sutra i with
      | .error e => .error e
      | .ok critique =>
        match A.agni i with
        | .error e => .error e
        | .ok agniOut =>
          let score := A.score agniOut
          let data : IterationData :=
            { iteration := i, yantra_output := joinTokens tokens,
              sutra_critique := critique, agni_output := agniOut, score := score,
              improvement := if 1 < i then score - prevScore acc else 0 }
          let acc' := acc ++ [data]
          let best' := if best < score then score else best
          let bestSol' := if best < score then some agniOut else bestSol
          if 1 < i ∧ score - prevScore acc < minImp then .ok (acc', best', bestSol')
          else orchestratorLoop A minImp fuel (i+1) acc' best' bestSol'

/-- `Orchestrator.process`: run the round loop from round 1, then issue one
`Smriti.store` call exactly when `best_score > 0.6`, and return the result
dictionary. -/
def orchestratorProcess (A : Adapters) (task : String) (maxIter : Nat)
    (minImp : ℚ) : Except String (SessionResult × List StoreCall) :=
  match orchestratorLoop A minImp maxIter 1 [] 0 none with
  | .error e => .error e
  | .ok (iters, best, bestSol) =>
    .ok ({ final_solution := bestSol, final_score := best, iterations := iters,
           total_iterations := iters.length },
         if 6/10 < best then [{ task := task, solution := bestSol, quality_score := best }] else [])

/-! ### Live mode: generate_process_events (src/backend/api.py) -/

/-- The SSE event vocabulary of `generate_process_events`, with the payload
fields the claims refer to.  `plateau_reached` carries only a formatted
message in the source; `errorEv` carries the message string (duplicated in
the source under the keys `message` and `error` — there is no iterations
key in its payload). -/
inductive Event where
  | start
  | rag_retrieved (chunks_count : Nat)
  | memory_found (examples_count : Nat)
  | iteration_start (iteration : Nat)
  | first_response_started
  | token (tok : String) (token_count : Nat) (iteration : Nat)
  | first_response_complete (iteration : Nat)
  | sutra_started (iteration : Nat)
  | improving_started (iteration : Nat)
  | improved_token (tok : String) (iteration : Nat) (token_count : Nat)
  | improved (iteration : Nat) (improved_output : String) (solution : String) (token_count : Nat)
  | iteration_complete (iteration : Nat) (data : LiveIterationData)
  | plateau_reached
  | endEv (task : String) (final_solution : Option String) (final_score : ℚ)
      (iterations : List LiveIterationData) (total_iterations : Nat) (used_rag : Bool)
  | errorEv (message : String)
  deriving Repr, DecidableEq

def fallbackEmpty : String := "Unable to generate improved output"

def fallbackError : String := "Error generating improved output. Please try again."

/-- Word count `len(agni_output.split())`: number of maximal whitespace-free
runs of characters. -/
def wordCountAux : List Char → Bool → Nat
  | [], _ => 0
  | c :: cs, inWord =>
    if c.isWhitespace then wordCountAux cs false
    else (if inWord then 0 else 1) + wordCountAux cs true

def wordCount (s : String) : Nat := wordCountAux s.toList false

structure LoopState where
  events : List Event
  iterations : List LiveIterationData
  best_score : ℚ
  best_solution : Option String
  error : Option String
  deriving Repr, DecidableEq

/-- The round loop of `generate_process_events` (api.py lines 150-352).
Yantra streaming failures and Sutra failures escape to the surrounding
try/except (partial round events already emitted are kept); the Agni call
alone sits in its own try/except and degrades to fallback text, with a
separate fallback for an empty reply.  The plateau check (api.py line 344)
reads `iterations[-1]` after the current round has been appended, so the
`prev_agni_score` it subtracts is the current round's own score. -/
def liveLoop (A : Adapters) (minImp : ℚ) :
    Nat → Nat → List LiveIterationData → ℚ → Option String → LoopState
  | 0, _, acc, best, bestSol =>
    { events := [], iterations := acc, best_score := best,
      best_solution := bestSol, error := none }
  | fuel+1, i, acc, best, bestSol =>
    match A.yantra i with
    | .error e =>
      { events := [Event.iteration_start i, Event.first_response_started],
        iterations := acc, best_score := best, best_solution := bestSol, error := some e }
    | .ok tokens =>
      let yantraOut := joinTokens tokens
      let yantraScore := A.score yantraOut
      let tokenEvents := tokens.enum.map (fun p => Event.token p.2 (p.1 + 1) i)
      match A.sutra i with
      | .error e =>
        { events := [Event.iteration_start i, Event.first_response_started] ++ tokenEvents
            ++ [Event.first_response_complete i, Event.sutra_started i],
          iterations := acc, best_score := best, best_solution := bestSol, error := some e }
      | .ok critique =>
        let agniOut := match A.agni i with
          | .error _ => fallbackError
          | .ok t => if t = "" then fallbackEmpty else t
        let agniScore := A.score agniOut
        let cnt := wordCount agniOut
        let data : LiveIterationData :=
          { iteration := i, yantra_output := yantraOut, yantra_score := yantraScore,
            sutra_critique := critique, agni_output := agniOut, agni_score := agniScore,
            score := agniScore, improvement := agniScore - yantraScore,
            iteration_improvement :=
              if 1 < i then agniScore - lastLiveScore acc else agniScore - yantraScore }
        let acc' := acc ++ [data]
        let best' := if best < agniScore then agniScore else best
        let bestSol' := if best < agniScore then some agniOut else bestSol
        let roundEvents :=
          [Event.iteration_start i, Event.first_response_started] ++ tokenEvents
            ++ [Event.first_response_complete i, Event.sutra_started i,
                Event.improving_started i, Event.improved_token agniOut i cnt,
                Event.improved i agniOut agniOut cnt, Event.iteration_complete i data]
        if 1 < i ∧ agniScore - lastLiveScore acc' < minImp then
          { events := roundEvents ++ [Event.plateau_reached], iterations := acc',
            best_score := best', best_solution := bestSol', error := none }
        else
          let rest := liveLoop A minImp fuel (i+1) acc' best' bestSol'
          { events := roundEvents ++ rest.events, iterations := rest.iterations,
            best_score := rest.best_score, best_solution := rest.best_solution,
            error := rest.error }

/-- Request-level configuration of a live session: the task text, the
retrieval flags with the sizes of their results, and the orchestrator's
loop parameters. -/
structure LiveConfig where
  task : String
  use_rag : Bool
  rag_chunks_count : Nat
  similar_count : Nat
  max_iterations : Nat
  min_improvement : ℚ

/-- Events emitted before round 1: `start`, then `rag_retrieved` when
retrieval is enabled, then `memory_found` when the similar-task lookup
returned anything. -/
def preEvents (cfg : LiveConfig) : List Event :=
  [Event.start]
    ++ (if cfg.use_rag then [Event.rag_retrieved cfg.rag_chunks_count] else [])
    ++ (if 0 < cfg.similar_count then [Event.memory_found cfg.similar_count] else [])

structure LiveRun where
  events : List Event
  history : List LiveIterationData
  final_score : ℚ
  final_solution : Option String
  errored : Option String
  stores : List StoreCall
  deriving Repr, DecidableEq

/-- Whole-session behaviour of `generate_process_events`: the loop runs
inside a try/except whose handler emits a single `error` event; on normal
completion the store-if-better call is issued exactly when
`best_score > 0.6` and a single `end` event closes the stream. -/
def liveRun (A : Adapters) (cfg : LiveConfig) : LiveRun :=
  let st := liveLoop A cfg.min_improvement cfg.max_iterations 1 [] 0 none
  match st.error with
  | some e =>
    { events := preEvents cfg ++ st.events ++ [Event.errorEv e],
      history := st.iterations, final_score := st.best_score,
      final_solution := st.best_solution, errored := some e, stores := [] }
  | none =>
    { events := preEvents cfg ++ st.events
        ++ [Event.endEv cfg.task st.best_solution st.best_score st.iterations
              st.iterations.length cfg.use_rag],
      history := st.iterations, final_score := st.best_score,
      final_solution := st.best_solution, errored := none,
      stores := if 6/10 < st.best_score then
          [{ task := cfg.task, solution := st.best_solution, quality_score := st.best_score }]
        else [] }

/-! ### Concrete scripted sessions used by the claim checks -/

/-- Improver script producing `a1`, `a2`, `a3` on rounds 1, 2, 3. -/
def scripted3 (a1 a2 a3 : String) : Nat → Except String String := fun i =>
  if i = 1 then .ok a1 else if i = 2 then .ok a2 else .ok a3

/-- Scripted Scorer from §8 of the spec: post-scores 0.3, 0.5, 0.7 on the
three improved outputs (any other text scores 0.1). -/
def scorer357 : String → ℚ := fun s =>
  if s = "a1" then 3/10 else if s = "a2" then 5/10 else if s = "a3" then 7/10 else 1/10

def adapters357 : Adapters :=
  { yantra := fun _ => .ok ["g"], sutra := fun _ => .ok "c",
    agni := scripted3 "a1" "a2" "a3", score := scorer357 }

def cfg357 : LiveConfig :=
  { task := "t", use_rag := false, rag_chunks_count := 0, similar_count := 0,
    max_iterations := 3, min_improvement := 1/100 }

/-- Same session with the Generator (Yantra) failing on round 2. -/
def adaptersGenFail : Adapters :=
  { yantra := fun i => if i = 2 then .error "boom" else .ok ["g"],
    sutra := fun _ => .ok "c", agni := scripted3 "a1" "a2" "a3", score := scorer357 }

/-! ### Helper views of the loops used by the verification -/

/-- The best-solution update performed after each round in both loops:
replace the running best pair only on strict improvement (`score >
best_score`); a tie leaves it unchanged. -/
def bestStep (p : ℚ × Option String) (q : ℚ × String) : ℚ × Option String :=
  if p.1 < q.1 then (q.1, some q.2) else p

/-- The improved text the live loop records for round `i`: Agni's reply,
the empty-reply fallback, or the exception fallback. -/
def liveAgniTextAt (A : Adapters) (i : Nat) : String :=
  match A.agni i with
  | .error _ => fallbackError
  | .ok t => if t = "" then fallbackEmpty else t

def tokensAt (A : Adapters) (i : Nat) : List String :=
  match A.yantra i with
  | .ok ts => ts
  | .error _ => []

/-- The canonical event block of one completed live round: iteration_start,
first_response_started, one token event per generation token, then
first_response_complete, sutra_started, improving_started, exactly one
improved_token, exactly one improved (with the same text duplicated), and
iteration_complete. -/
def roundBlockOf (A : Adapters) (d : LiveIterationData) : List Event :=
  [Event.iteration_start d.iteration, Event.first_response_started]
    ++ (tokensAt A d.iteration).enum.map (fun p => Event.token p.2 (p.1 + 1) d.iteration)
    ++ [Event.first_response_complete d.iteration, Event.sutra_started d.iteration,
        Event.improving_started d.iteration,
        Event.improved_token d.agni_output d.iteration (wordCount d.agni_output),
        Event.improved d.iteration d.agni_output d.agni_output (wordCount d.agni_output),
        Event.iteration_complete d.iteration d]

/-- Events emitted for a round that aborts inside Yantra (before any token)
or inside Sutra (after the generation events). -/
def failedRoundEvents (A : Adapters) (i : Nat) : List Event :=
  match A.yantra i with
  | .error _ => [Event.iteration_start i, Event.first_response_started]
  | .ok tokens =>
    [Event.iteration_start i, Event.first_response_started]
      ++ tokens.enum.map (fun p => Event.token p.2 (p.1 + 1) i)
      ++ [Event.first_response_complete i, Event.sutra_started i]

def isTerminal : Event → Bool
  | .endEv .. => true
  | .errorEv _ => true
  | _ => false

/-- The round-history list carried in an event's payload, when the payload
has one: only `end` events carry the session iterations (the `error`
payload consists of the message alone). -/
def payloadIterations : Event → Option (List LiveIterationData)
  | .endEv _ _ _ its _ _ => some its
  | _ => none

/-! ### Memory store: Smriti.store (src/backend/agents/smriti.py)

The `memories` table keyed by the UNIQUE column `task_hash` is modelled as
a list of records; the MD5 fingerprint is abstracted as an arbitrary hash
function on the task text.  `store` looks the fingerprint up first and
either updates in place (only when the new quality score is strictly
greater), leaves the row untouched, or inserts a fresh row. -/

structure MemoryRecord where
  task_hash : String
  task : String
  task_embedding : Option String
  solution : String
  quality_score : ℚ
  metadata : Option String
  deriving Repr, DecidableEq

structure StoreArgs where
  task : String
  solution : String
  quality_score : ℚ
  task_embedding : Option String
  metadata : Option String
  deriving Repr, DecidableEq

/-- The UPDATE branch: solution, quality_score, task_embedding and metadata
are rewritten; id, task_hash, task and created_at stay. -/
def overwriteRecord (r : MemoryRecord) (a : StoreArgs) : MemoryRecord :=
  { r with
    solution := a.solution
    quality_score := a.quality_score
    task_embedding := a.task_embedding
    metadata := a.metadata }

def freshRecord (hash : String → String) (a : StoreArgs) : MemoryRecord :=
  { task_hash := hash a.task, task := a.task, task_embedding := a.task_embedding,
    solution := a.solution, quality_score := a.quality_score, metadata := a.metadata }

def smritiStore (hash : String → String) (db : List MemoryRecord)
    (a : StoreArgs) : List MemoryRecord :=
  let h := hash a.task
  match db.find? (fun r => r.task_hash == h) with
  | some existing =>
    if existing.quality_score < a.quality_score then
      db.map (fun r => if r.task_hash = h then overwriteRecord r a else r)
    else db
  | none => db ++ [freshRecord hash a]

def applyStores (hash : String → String) (calls : List StoreArgs)
    (db : List MemoryRecord) : List MemoryRecord :=
  calls.foldl (smritiStore hash) db

/-- At most one row per task fingerprint. -/
def UniqueHashes (db : List MemoryRecord) : Prop :=
  db.Pairwise (fun r s => r.task_hash ≠ s.task_hash)

/-! ### Background dispatcher: run_background_task
(src/backend/utils/background_tasks.py)

`run_background_task` wraps the operation in `safe_wrapper`, which catches
every exception and prints one line naming the function; nothing is
re-raised.  The operation's outcome is modelled as an `Except` value and
the observable effect as the list of log lines. -/

def runBackgroundTaskLogs (funcName : String) (op : Except String Unit) : List String :=
  match op with
  | .ok _ => []
  | .error e => ["⚠️ Background task error (" ++ funcName ++ "): " ++ e]

/-- A request that computes `result` and then fires `op` in the background:
the pair of the response sent to the client and the background log. -/
def submitWithBackground {α : Type} (result : α) (funcName : String)
    (op : Except String Unit) : α × List String :=
  (result, runBackgroundTaskLogs funcName op)

/-! ### Shape of the live loop

One induction establishes every structural fact the claims need about
`generate_process_events`' round loop: the history grows by consecutive
1-based rounds, the best pair is the `bestStep` fold over the appended
rounds, the event list is the concatenation of one canonical block per
completed round followed by a tail that is empty, a lone
`plateau_reached`, or the partial events of the round that failed, and —
because the buggy `prev_agni_score` read at api.py line 344 compares the
round's score with itself — with a positive `min_improvement` the loop
never runs more than two rounds (one, when it starts past round 1). -/

def liveLoopSpec (A : Adapters) (minImp : ℚ) (fuel i : Nat) (st : LoopState)
    (acc : List LiveIterationData) (best : ℚ) (bestSol : Option String) : Prop :=
  ∃ new tail,
    st.iterations = acc ++ new ∧
    (st.best_score, st.best_solution) =
      List.foldl bestStep (best, bestSol)
        (new.map (fun d => (d.agni_score, d.agni_output))) ∧
    new.map (fun d => d.iteration) = List.range' i new.length ∧
    (∀ d ∈ new, d.agni_output = liveAgniTextAt A d.iteration ∧
      d.agni_score = A.score (liveAgniTextAt A d.iteration) ∧ d.score = d.agni_score) ∧
    st.events = (new.map (fun d => roundBlockOf A d)).join ++ tail ∧
    (st.error = none → tail = [] ∨ tail = [Event.plateau_reached]) ∧
    (∀ e, st.error = some e → tail = failedRoundEvents A (i + new.length) ∧
      (A.yantra (i + new.length) = .error e ∨
        ∃ ts, A.yantra (i + new.length) = .ok ts ∧ A.sutra (i + new.length) = .error e)) ∧
    (fuel = 0 → new = []) ∧
    (0 < fuel → st.error = none → new ≠ []) ∧
    (st.error = none → 0 < minImp → 1 ≤ i →
      new.length = min fuel (if 1 < i then 1 else 2)) ∧
    (st.error = none → minImp ≤ 0 → new.length = fuel)

def noTerminal (l : List Event) : Prop := ∀ e ∈ l, isTerminal e = false

/-- The Improver reply the aggregate loop records on round `i` (it applies
no fallback; meaningful when the reply is `ok`). -/
def rawAgniText (A : Adapters) (i : Nat) : String :=
  match A.agni i with
  | .ok t => t
  | .error _ => ""

def aggScoreAt (A : Adapters) (i : Nat) : ℚ := A.score (rawAgniText A i)

/-- Adapters that never raise and whose Improver never replies with the
empty string — the premise under which both delivery modes run the same
rounds. -/
def TotalAdapters (A : Adapters) : Prop :=
  ∀ i, (∃ ts, A.yantra i = .ok ts) ∧ (∃ c, A.sutra i = .ok c) ∧
    (∃ t, A.agni i = .ok t ∧ t ≠ "")

def memRecT : MemoryRecord :=
  { task_hash := "T", task := "T", task_embedding := none, solution := "sol",
    quality_score := 3/4, metadata := none }

def storeArgsLow : StoreArgs :=
  { task := "T", solution := "s2", quality_score := 1/2, task_embedding := none,
    metadata := none }

def storeArgsHigh : StoreArgs :=
  { task := "T", solution := "s3", quality_score := 9/10, task_embedding := none,
    metadata := none }

/-- Aggregate loop with the Improver failing on round 2 (the aggregate loop
has no fallback, so the session aborts). -/
def adaptersAgniFail : Adapters :=
  { yantra := fun _ => .ok ["g"], sutra := fun _ => .ok "c",
    agni := fun i => if i = 2 then .error "boom2" else scripted3 "a1" "a2" "a3" i,
    score := scorer357 }

def adaptersC2w : Adapters :=
  { yantra := fun _ => .ok ["g"], sutra := fun _ => .ok "c",
    agni := fun i => if i = 2 then .error "down" else .ok "a1",
    score := fun _ => 3/10 }

def adaptersC3w : Adapters :=
  { yantra := fun _ => .ok ["g"], sutra := fun _ => .ok "c",
    agni := fun _ => .ok "a1", score := fun _ => 3/10 }

def scorer59 : String → ℚ := fun s => if s = "a59" then 59/100 else 1/10

def scorer75 : String → ℚ := fun s => if s = "a75" then 3/4 else 1/10

def adapters59 : Adapters :=
  { yantra := fun _ => .ok ["g"], sutra := fun _ => .ok "c",
    agni := fun _ => .ok "a59", score := scorer59 }

def adapters75 : Adapters :=
  { yantra := fun _ => .ok ["g"], sutra := fun _ => .ok "c",
    agni := fun _ => .ok "a75", score := scorer75 }

def adaptersConst : Adapters :=
  { yantra := fun _ => .ok ["g"], sutra := fun _ => .ok "c",
    agni := fun _ => .ok "s", score := fun _ => 1/2 }

def cfgC4 : LiveConfig :=
  { task := "t", use_rag := false, rag_chunks_count := 0, similar_count := 0,
    max_iterations := 2, min_improvement := 0 }

theorem ite_add_bounds {c : Prop} [Decidable c] {x lo hi d : ℚ} (h1 : lo ≤ x)
    (h2 : x ≤ hi) (hd : 0 ≤ d) :
    lo ≤ (if c then x + d else x) ∧ (if c then x + d else x) ≤ hi + d := by
  split <;> constructor <;> linarith

theorem evaluate_code_total_bounds (a b c d e f : Bool) :
    1/2 ≤ (evaluate_code a b c d e f).total ∧ (evaluate_code a b c d e f).total ≤ 1 := by
  unfold evaluate_code
  set comp : ℚ := if a then 1/2 + 2/10 else 1/2 with hcompdef
  have hcomp : 1/2 ≤ comp ∧ comp ≤ 1/2 + 2/10 :=
    hcompdef ▸ ite_add_bounds le_rfl le_rfl (by norm_num)
  set q1 : ℚ := if b then 1/2 + 1/10 else 1/2 with hq1def
  have hb1 : 1/2 ≤ q1 ∧ q1 ≤ 1/2 + 1/10 :=
    hq1def ▸ ite_add_bounds le_rfl le_rfl (by norm_num)
  set q2 : ℚ := if c then q1 + 1/10 else q1 with hq2def
  have hb2 : 1/2 ≤ q2 ∧ q2 ≤ 1/2 + 2/10 := by
    have := hq2def ▸ ite_add_bounds hb1.1 hb1.2 (by norm_num : (0:ℚ) ≤ 1/10)
    constructor <;> linarith [this.1, this.2]
  set q3 : ℚ := if d then q2 + 1/10 else q2 with hq3def
  have hb3 : 1/2 ≤ q3 ∧ q3 ≤ 1/2 + 3/10 := by
    have := hq3def ▸ ite_add_bounds hb2.1 hb2.2 (by norm_num : (0:ℚ) ≤ 1/10)
    constructor <;> linarith [this.1, this.2]
  set q4 : ℚ := if e then q3 + 1/10 else q3 with hq4def
  have hb4 : 1/2 ≤ q4 ∧ q4 ≤ 1/2 + 4/10 := by
    have := hq4def ▸ ite_add_bounds hb3.1 hb3.2 (by norm_num : (0:ℚ) ≤ 1/10)
    constructor <;> linarith [this.1, this.2]
  set q5 : ℚ := if f then q4 + 1/10 else q4 with hq5def
  have hb5 : 1/2 ≤ q5 ∧ q5 ≤ 1 := by
    have := hq5def ▸ ite_add_bounds hb4.1 hb4.2 (by norm_num : (0:ℚ) ≤ 1/10)
    constructor <;> linarith [this.1, this.2]
  have hcorr : min 1 ((1:ℚ)/2) = 1/2 := by norm_num
  have hq : 1/2 ≤ min 1 q5 ∧ min 1 q5 ≤ 1 :=
    ⟨le_min (by norm_num) hb5.1, min_le_left _ _⟩
  have hcm : 1/2 ≤ min 1 comp ∧ min 1 comp ≤ 1 :=
    ⟨le_min (by norm_num) hcomp.1, min_le_left _ _⟩
  simp only [hcorr]
  constructor <;> nlinarith [hq.1, hq.2, hcm.1, hcm.2]

theorem evaluate_rag_total_bounds (hc : Bool) (ov tu : Nat) (cit : Bool)
    (lc : Nat) (md : Bool) :
    1/4 ≤ (evaluate_rag_answer hc ov tu cit lc md).total ∧
      (evaluate_rag_answer hc ov tu cit lc md).total ≤ 1 := by
  unfold evaluate_rag_answer
  rcases hc with _ | _
  · norm_num
  · simp only [Bool.true_eq_false, if_false]
    have hdiv : (0 : ℚ) ≤ (ov : ℚ) / (tu : ℚ) * 2 := by positivity
    set g1 : ℚ := if 0 < tu then min 1 ((ov : ℚ) / (tu : ℚ) * 2) else 1/2 with hg1def
    have hg1 : 0 ≤ g1 ∧ g1 ≤ 1 := by
      rw [hg1def]
      split
      · exact ⟨le_min (by norm_num) hdiv, min_le_left _ _⟩
      · norm_num
    set g2 : ℚ := if cit then g1 + 2/10 else g1 with hg2def
    have hg2 : 0 ≤ g2 ∧ g2 ≤ 12/10 := by
      rw [hg2def]
      split
      · constructor <;> linarith [hg1.1, hg1.2]
      · constructor <;> linarith [hg1.1, hg1.2]
    set c1 : ℚ := if 3 < lc then 1/2 + 2/10 else 1/2 with hc1def
    have hc1 : 1/2 ≤ c1 ∧ c1 ≤ 7/10 := by
      rw [hc1def]; split <;> norm_num
    set c2 : ℚ := if md then c1 + 1/10 else c1 with hc2def
    have hc2 : 1/2 ≤ c2 ∧ c2 ≤ 8/10 := by
      rw [hc2def]
      split
      · constructor <;> linarith [hc1.1, hc1.2]
      · constructor <;> linarith [hc1.1, hc1.2]
    have hg : 0 ≤ min 1 g2 ∧ min 1 g2 ≤ 1 :=
      ⟨le_min (by norm_num) hg2.1, min_le_left _ _⟩
    have hcl : 1/2 ≤ min 1 c2 ∧ min 1 c2 ≤ 1 :=
      ⟨le_min (by norm_num) hc2.1, min_le_left _ _⟩
    have hcomp : min 1 ((1 : ℚ)/2) = 1/2 := by norm_num
    simp only [hcomp]
    constructor <;> nlinarith [hg.1, hg.2, hcl.1, hcl.2]

/-! ### Generic facts about the best-solution fold -/

theorem bestStep_fst_le (p : ℚ × Option String) (q : ℚ × String) :
    p.1 ≤ (bestStep p q).1 := by
  unfold bestStep
  split
  · next h => exact le_of_lt h
  · exact le_rfl

theorem bestStep_fst_ge (p : ℚ × Option String) (q : ℚ × String) :
    q.1 ≤ (bestStep p q).1 := by
  unfold bestStep
  split
  · exact le_rfl
  · next h => exact not_lt.mp h

theorem bestFold_init_le (l : List (ℚ × String)) :
    ∀ p : ℚ × Option String, p.1 ≤ (List.foldl bestStep p l).1 := by
  induction l with
  | nil => intro p; simp
  | cons q t ih =>
    intro p
    calc p.1 ≤ (bestStep p q).1 := bestStep_fst_le p q
    _ ≤ (List.foldl bestStep (bestStep p q) t).1 := ih (bestStep p q)

theorem bestFold_mem_le (l : List (ℚ × String)) :
    ∀ p : ℚ × Option String, ∀ q ∈ l, q.1 ≤ (List.foldl bestStep p l).1 := by
  induction l with
  | nil => intro p q hq; simp at hq
  | cons r t ih =>
    intro p q hq
    rcases List.mem_cons.mp hq with rfl | hq'
    · calc q.1 ≤ (bestStep p q).1 := bestStep_fst_ge p q
      _ ≤ (List.foldl bestStep (bestStep p q) t).1 := bestFold_init_le t _
    · exact ih (bestStep p r) q hq'

theorem bestFold_fst_mem (l : List (ℚ × String)) :
    ∀ p : ℚ × Option String,
      (List.foldl bestStep p l).1 = p.1 ∨ ∃ q ∈ l, (List.foldl bestStep p l).1 = q.1 := by
  induction l with
  | nil => intro p; left; rfl
  | cons r t ih =>
    intro p
    rcases ih (bestStep p r) with h | ⟨q, hq, hfq⟩
    · by_cases hlt : p.1 < r.1
      · right
        refine ⟨r, List.mem_cons_self _ _, ?_⟩
        rw [List.foldl_cons, h]
        unfold bestStep
        rw [if_pos hlt]
      · left
        rw [List.foldl_cons, h]
        unfold bestStep
        rw [if_neg hlt]
    · right
      exact ⟨q, List.mem_cons_of_mem _ hq, hfq⟩

theorem bestFold_fst_fixed (l : List (ℚ × String)) :
    ∀ p : ℚ × Option String, (List.foldl bestStep p l).1 = p.1 →
      List.foldl bestStep p l = p := by
  induction l with
  | nil => intro p _; rfl
  | cons q t ih =>
    intro p h
    rw [List.foldl_cons] at h ⊢
    by_cases hlt : p.1 < q.1
    · exfalso
      have h1 : (bestStep p q).1 = q.1 := by unfold bestStep; rw [if_pos hlt]
      have h2 := bestFold_init_le t (bestStep p q)
      rw [h1] at h2
      rw [h] at h2
      linarith
    · have hstep : bestStep p q = p := by unfold bestStep; rw [if_neg hlt]
      rw [hstep] at h ⊢
      exact ih p h

theorem bestFold_first_achiever (l : List (ℚ × String)) :
    ∀ p : ℚ × Option String, p.1 < (List.foldl bestStep p l).1 →
      ∃ l1 q l2, l = l1 ++ q :: l2 ∧ q.1 = (List.foldl bestStep p l).1 ∧
        (List.foldl bestStep p l).2 = some q.2 ∧ ∀ r ∈ l1, r.1 < q.1 := by
  induction l with
  | nil => intro p h; simp at h
  | cons q t ih =>
    intro p h
    rw [List.foldl_cons] at h ⊢
    by_cases hlt : p.1 < q.1
    · have hstep : bestStep p q = (q.1, some q.2) := by unfold bestStep; rw [if_pos hlt]
      rw [hstep] at h ⊢
      by_cases hmore : q.1 < (List.foldl bestStep (q.1, some q.2) t).1
      · obtain ⟨l1, r, l2, ht, hr1, hr2, hsmall⟩ := ih (q.1, some q.2) hmore
        refine ⟨q :: l1, r, l2, by rw [ht]; simp, hr1, hr2, ?_⟩
        intro x hx
        rcases List.mem_cons.mp hx with rfl | hx'
        · rw [hr1]; exact hmore
        · exact hsmall x hx'
      · have hfix : List.foldl bestStep (q.1, some q.2) t = (q.1, some q.2) := by
          apply bestFold_fst_fixed
          have h1 := bestFold_init_le t (q.1, some q.2)
          have h2 : (List.foldl bestStep (q.1, some q.2) t).1 ≤ q.1 := not_lt.mp hmore
          exact le_antisymm h2 h1
        refine ⟨[], q, t, rfl, ?_, ?_, by intro r hr; simp at hr⟩
        · rw [hfix]
        · rw [hfix]
    · have hstep : bestStep p q = p := by unfold bestStep; rw [if_neg hlt]
      rw [hstep] at h ⊢
      obtain ⟨l1, r, l2, ht, hr1, hr2, hsmall⟩ := ih p h
      refine ⟨q :: l1, r, l2, by rw [ht]; simp, hr1, hr2, ?_⟩
      intro x hx
      rcases List.mem_cons.mp hx with rfl | hx'
      · have hq_le : ¬ p.1 < x.1 := hlt
        have : x.1 ≤ p.1 := not_lt.mp hq_le
        have : x.1 ≤ p.1 := this
        calc x.1 ≤ p.1 := this
        _ < r.1 := by rw [hr1]; exact h
      · exact hsmall x hx'

theorem bestFold_take_mono (l : List (ℚ × String)) (p : ℚ × Option String) (n : Nat) :
    (List.foldl bestStep p (l.take n)).1 ≤ (List.foldl bestStep p (l.take (n+1))).1 := by
  rw [List.take_succ, List.foldl_append]
  exact bestFold_init_le _ _

/-! ### Shape of the aggregate loop -/

theorem orchestratorLoop_ok (A : Adapters) (minImp : ℚ) :
    ∀ fuel i acc best bestSol iters b s,
      orchestratorLoop A minImp fuel i acc best bestSol = .ok (iters, b, s) →
      ∃ new, iters = acc ++ new ∧
        (b, s) = List.foldl bestStep (best, bestSol)
          (new.map (fun d => (d.score, d.agni_output))) ∧
        new.map (fun d => d.iteration) = List.range' i new.length ∧
        ∀ d ∈ new, A.agni d.iteration = .ok d.agni_output ∧
          d.score = A.score d.agni_output := by
  intro fuel
  induction fuel with
  | zero =>
    intro i acc best bestSol iters b s h
    simp only [orchestratorLoop] at h
    injection h with h'
    obtain ⟨h1, h2, h3⟩ : iters = acc ∧ b = best ∧ s = bestSol := by
      refine ⟨congrArg Prod.fst h'.symm, ?_, ?_⟩
      · have := congrArg Prod.snd h'; exact (congrArg Prod.fst this).symm
      · have := congrArg Prod.snd h'; exact (congrArg Prod.snd this).symm
    subst h1; subst h2; subst h3
    exact ⟨[], by simp, rfl, rfl, by intro d hd; simp at hd⟩
  | succ fuel ih =>
    intro i acc best bestSol iters b s h
    rw [orchestratorLoop] at h
    cases hy : A.yantra i with
    | error e => rw [hy] at h; exact absurd h (by simp)
    | ok tokens =>
      rw [hy] at h
      cases hsu : A.sutra i with
      | error e => rw [hsu] at h; exact absurd h (by simp)
      | ok critique =>
        rw [hsu] at h
        cases hag : A.agni i with
        | error e => rw [hag] at h; exact absurd h (by simp)
        | ok agniOut =>
          rw [hag] at h
          simp only [] at h
          set d : IterationData :=
            { iteration := i, yantra_output := joinTokens tokens,
              sutra_critique := critique, agni_output := agniOut,
              score := A.score agniOut,
              improvement := if 1 < i then A.score agniOut - prevScore acc else 0 }
            with hd
          have hstep : bestStep (best, bestSol) (d.score, d.agni_output) =
              ((if best < A.score agniOut then A.score agniOut else best),
               (if best < A.score agniOut then some agniOut else bestSol)) := by
            by_cases hbs : best < A.score agniOut <;> simp [bestStep, hbs, hd]
          split at h
          · injection h with h'
            obtain ⟨h1, h2, h3⟩ : iters = acc ++ [d] ∧
                b = (if best < A.score agniOut then A.score agniOut else best) ∧
                s = (if best < A.score agniOut then some agniOut else bestSol) := by
              refine ⟨congrArg Prod.fst h'.symm, ?_, ?_⟩
              · have := congrArg Prod.snd h'; exact (congrArg Prod.fst this).symm
              · have := congrArg Prod.snd h'; exact (congrArg Prod.snd this).symm
            subst h1; subst h2; subst h3
            refine ⟨[d], rfl, ?_, ?_, ?_⟩
            · simp only [List.map_cons, List.map_nil, List.foldl_cons, List.foldl_nil]
              rw [hstep]
            · simp [hd, List.range']
            · intro x hx
              rcases List.mem_singleton.mp hx with rfl
              exact ⟨by rw [hd]; exact hag, by rw [hd]⟩
          · obtain ⟨new', hiters, hfold, hrange, hmem⟩ :=
              ih (i+1) (acc ++ [d]) _ _ iters b s h
            refine ⟨d :: new', by rw [hiters]; simp, ?_, ?_, ?_⟩
            · simp only [List.map_cons, List.foldl_cons]
              rw [hstep]
              exact hfold
            · have hdit : d.iteration = i := by rw [hd]
              simp only [List.map_cons, List.length_cons, List.range'_succ, hdit, hrange]
            · intro x hx
              rcases List.mem_cons.mp hx with rfl | hx'
              · exact ⟨by rw [hd]; exact hag, by rw [hd]⟩
              · exact hmem x hx'

theorem liveLoop_master (A : Adapters) (minImp : ℚ) :
    ∀ fuel i acc best bestSol,
      liveLoopSpec A minImp fuel i (liveLoop A minImp fuel i acc best bestSol)
        acc best bestSol := by
  intro fuel
  induction fuel with
  | zero =>
    intro i acc best bestSol
    refine ⟨[], [], by simp [liveLoop], by simp [liveLoop], rfl, ?_, by simp [liveLoop], ?_, ?_, ?_, ?_, ?_, ?_⟩
    · intro d hd; simp at hd
    · intro h; left; rfl
    · intro e he; simp [liveLoop] at he
    · intro _; rfl
    · intro h _ _; simp at h
    · intro _ _ _; simp
    · intro _ _; rfl
  | succ fuel ih =>
    intro i acc best bestSol
    rw [liveLoop]
    cases hy : A.yantra i with
    | error e =>
      refine ⟨[], [Event.iteration_start i, Event.first_response_started],
        by simp, by simp, rfl, ?_, by simp, ?_, ?_, ?_, ?_, ?_, ?_⟩
      · intro d hd; simp at hd
      · intro h; simp at h
      · intro e' he'
        have he2 : e = e' := by simpa using he'
        subst he2
        constructor
        · simp [failedRoundEvents, hy]
        · left
          simpa using hy
      · intro _; rfl
      · intro _ hnone; simp at hnone
      · intro hnone; simp at hnone
      · intro hnone; simp at hnone
    | ok tokens =>
      cases hsu : A.sutra i with
      | error e =>
        refine ⟨[], [Event.iteration_start i, Event.first_response_started]
            ++ tokens.enum.map (fun p => Event.token p.2 (p.1 + 1) i)
            ++ [Event.first_response_complete i, Event.sutra_started i],
          by simp, by simp, rfl, ?_, by simp, ?_, ?_, ?_, ?_, ?_, ?_⟩
        · intro d hd; simp at hd
        · intro h; simp at h
        · intro e' he'
          have he2 : e = e' := by simpa using he'
          subst he2
          constructor
          · simp [failedRoundEvents, hy]
          · right
            exact ⟨tokens, by simpa using hy, by simpa using hsu⟩
        · intro _; rfl
        · intro _ hnone; simp at hnone
        · intro hnone; simp at hnone
        · intro hnone; simp at hnone
      | ok critique =>
        simp only []
        set agniOut := (match A.agni i with
          | .error _ => fallbackError
          | .ok t => if t = "" then fallbackEmpty else t) with hagniOut
        have hagniText : agniOut = liveAgniTextAt A i := by
          rw [hagniOut, liveAgniTextAt]
        set data : LiveIterationData :=
          { iteration := i, yantra_output := joinTokens tokens,
            yantra_score := A.score (joinTokens tokens),
            sutra_critique := critique, agni_output := agniOut,
            agni_score := A.score agniOut, score := A.score agniOut,
            improvement := A.score agniOut - A.score (joinTokens tokens),
            iteration_improvement :=
              if 1 < i then A.score agniOut - lastLiveScore acc
              else A.score agniOut - A.score (joinTokens tokens) } with hdata
        have hlast : lastLiveScore (acc ++ [data]) = A.score agniOut := by
          simp [lastLiveScore, List.getLast?_concat, hdata]
        have hblock : roundBlockOf A data =
            [Event.iteration_start i, Event.first_response_started]
              ++ tokens.enum.map (fun p => Event.token p.2 (p.1 + 1) i)
              ++ [Event.first_response_complete i, Event.sutra_started i,
                  Event.improving_started i,
                  Event.improved_token agniOut i (wordCount agniOut),
                  Event.improved i agniOut agniOut (wordCount agniOut),
                  Event.iteration_complete i data] := by
          rw [roundBlockOf, hdata]
          simp [tokensAt, hy]
        have hstep : bestStep (best, bestSol) (data.agni_score, data.agni_output) =
            ((if best < A.score agniOut then A.score agniOut else best),
             (if best < A.score agniOut then some agniOut else bestSol)) := by
          by_cases hbs : best < A.score agniOut <;> simp [bestStep, hbs, hdata]
        have hmemd : data.agni_output = liveAgniTextAt A data.iteration ∧
            data.agni_score = A.score (liveAgniTextAt A data.iteration) ∧
            data.score = data.agni_score := by
          refine ⟨?_, ?_, rfl⟩
          · rw [hdata]
            simpa using hagniText
          · rw [hdata]
            simp only []
            rw [← hagniText]
        split
        · next hcond =>
          refine ⟨[data], [Event.plateau_reached], by simp, ?_, by simp [hdata], ?_, ?_, ?_, ?_, ?_, ?_, ?_, ?_⟩
          · simp only [List.map_cons, List.map_nil, List.foldl_cons, List.foldl_nil]
            rw [hstep]
          · intro d hd
            rcases List.mem_singleton.mp hd with rfl
            exact hmemd
          · simp [hblock]
          · intro _; right; rfl
          · intro e he; simp at he
          · intro hf; exact absurd hf (Nat.succ_ne_zero fuel)
          · intro _ _ hne; simp at hne
          · intro _ hpos hi
            have h1i : 1 < i := hcond.1
            simp only [List.length_cons, List.length_nil, if_pos h1i]
            omega
          · intro _ hImpLe
            exfalso
            have h2 := hcond.2
            rw [hlast, sub_self] at h2
            linarith
        · next hcond =>
          obtain ⟨new', tail', ih1, ih2, ih3, ih4, ih5, ih6, ih7, ih8, ih9, ih10, ih11⟩ :=
            ih (i+1) (acc ++ [data])
              (if best < A.score agniOut then A.score agniOut else best)
              (if best < A.score agniOut then some agniOut else bestSol)
          refine ⟨data :: new', tail', ?_, ?_, ?_, ?_, ?_, ?_, ?_, ?_, ?_, ?_, ?_⟩
          · simp only []
            rw [ih1]
            simp
          · simp only [List.map_cons, List.foldl_cons]
            rw [hstep]
            exact ih2
          · simp only [List.map_cons, List.length_cons, List.range'_succ]
            rw [ih3]
          · intro d hd
            rcases List.mem_cons.mp hd with rfl | hd'
            · exact hmemd
            · exact ih4 d hd'
          · simp only [List.map_cons, List.join]
            rw [hblock, ih5]
            simp
          · intro h
            exact ih6 h
          · intro e he
            obtain ⟨ht, hd⟩ := ih7 e he
            constructor
            · rw [ht]
              congr 1
              simp [List.length_cons]
              omega
            · have : i + 1 + new'.length = i + (new'.length + 1) := by omega
              rw [this] at hd
              simpa [List.length_cons] using hd
          · intro hf; exact absurd hf (Nat.succ_ne_zero fuel)
          · intro _ _ hne; simp at hne
          · intro hnone hpos hi
            have hile : ¬ 1 < i := by
              intro h1i
              apply hcond
              refine ⟨h1i, ?_⟩
              rw [hlast, sub_self]
              exact hpos
            have hieq : i = 1 := by omega
            subst hieq
            have := ih10 hnone hpos (by omega)
            simp only [List.length_cons, this]
            norm_num
            omega
          · intro hnone hImpLe
            have := ih11 hnone hImpLe
            simp only [List.length_cons, this]

/-! ### No terminal event is emitted inside the loop -/

theorem noTerminal_nil : noTerminal [] := by
  intro e he; simp at he

theorem noTerminal_cons {a : Event} {l : List Event} (ha : isTerminal a = false)
    (hl : noTerminal l) : noTerminal (a :: l) := by
  intro e he
  rcases List.mem_cons.mp he with rfl | he'
  · exact ha
  · exact hl e he'

theorem noTerminal_append {l1 l2 : List Event} (h1 : noTerminal l1)
    (h2 : noTerminal l2) : noTerminal (l1 ++ l2) := by
  intro e he
  rcases List.mem_append.mp he with he' | he'
  · exact h1 e he'
  · exact h2 e he'

theorem noTerminal_tokens (tokens : List String) (i : Nat) :
    noTerminal (tokens.enum.map (fun p => Event.token p.2 (p.1 + 1) i)) := by
  intro e he
  obtain ⟨p, _, rfl⟩ := List.mem_map.mp he
  rfl

theorem noTerminal_join {L : List (List Event)} (h : ∀ l ∈ L, noTerminal l) :
    noTerminal L.join := by
  induction L with
  | nil => exact noTerminal_nil
  | cons x t ih =>
    simp only [List.join]
    exact noTerminal_append (h x (List.mem_cons_self _ _))
      (ih fun l hl => h l (List.mem_cons_of_mem _ hl))

theorem noTerminal_roundBlock (A : Adapters) (d : LiveIterationData) :
    noTerminal (roundBlockOf A d) := by
  unfold roundBlockOf
  refine noTerminal_append (noTerminal_append ?_ (noTerminal_tokens _ _)) ?_
  · exact noTerminal_cons rfl (noTerminal_cons rfl noTerminal_nil)
  · exact noTerminal_cons rfl (noTerminal_cons rfl (noTerminal_cons rfl
      (noTerminal_cons rfl (noTerminal_cons rfl (noTerminal_cons rfl noTerminal_nil)))))

theorem noTerminal_failedRound (A : Adapters) (i : Nat) :
    noTerminal (failedRoundEvents A i) := by
  unfold failedRoundEvents
  cases hy : A.yantra i with
  | error e => exact noTerminal_cons rfl (noTerminal_cons rfl noTerminal_nil)
  | ok tokens =>
    refine noTerminal_append (noTerminal_append ?_ (noTerminal_tokens tokens i)) ?_
    · exact noTerminal_cons rfl (noTerminal_cons rfl noTerminal_nil)
    · exact noTerminal_cons rfl (noTerminal_cons rfl noTerminal_nil)

theorem liveLoop_no_terminal (A : Adapters) (minImp : ℚ)
    (fuel i : Nat) (acc : List LiveIterationData) (best : ℚ) (bestSol : Option String) :
    noTerminal (liveLoop A minImp fuel i acc best bestSol).events := by
  have hm := liveLoop_master A minImp fuel i acc best bestSol
  unfold liveLoopSpec at hm
  obtain ⟨new, tail, _, _, _, _, h5, h6, h7, _, _, _, _⟩ := hm
  rw [h5]
  refine noTerminal_append (noTerminal_join ?_) ?_
  · intro l hl
    obtain ⟨d, _, rfl⟩ := List.mem_map.mp hl
    exact noTerminal_roundBlock A d
  · cases herr : (liveLoop A minImp fuel i acc best bestSol).error with
    | none =>
      rcases h6 herr with rfl | rfl
      · exact noTerminal_nil
      · exact noTerminal_cons rfl noTerminal_nil
    | some e =>
      rw [(h7 e herr).1]
      exact noTerminal_failedRound A _

theorem preEvents_no_terminal (cfg : LiveConfig) : noTerminal (preEvents cfg) := by
  unfold preEvents
  refine noTerminal_append (noTerminal_append
    (noTerminal_cons rfl noTerminal_nil) ?_) ?_
  · split
    · exact noTerminal_cons rfl noTerminal_nil
    · exact noTerminal_nil
  · split
    · exact noTerminal_cons rfl noTerminal_nil
    · exact noTerminal_nil

/-! ### Mode equivalence support -/

theorem orchestratorLoop_total (A : Adapters) (minImp : ℚ) (hA : TotalAdapters A)
    (hImp : minImp ≤ 0)
    (hMono : ∀ i, 1 ≤ i → aggScoreAt A i ≤ aggScoreAt A (i+1)) :
    ∀ fuel i acc best bestSol,
      1 ≤ i → (1 < i → prevScore acc = aggScoreAt A (i-1)) →
      ∃ newA bF sF,
        orchestratorLoop A minImp fuel i acc best bestSol = .ok (acc ++ newA, bF, sF) ∧
        newA.length = fuel := by
  intro fuel
  induction fuel with
  | zero =>
    intro i acc best bestSol hi hprev
    exact ⟨[], best, bestSol, by simp [orchestratorLoop], rfl⟩
  | succ fuel ih =>
    intro i acc best bestSol hi hprev
    obtain ⟨⟨ts, hy⟩, ⟨c, hs⟩, ⟨t, hag, htne⟩⟩ := hA i
    have hsc : aggScoreAt A i = A.score t := by simp [aggScoreAt, rawAgniText, hag]
    have hnocond : ¬(1 < i ∧ A.score t - prevScore acc < minImp) := by
      rintro ⟨h1i, hlt⟩
      rw [hprev h1i, ← hsc] at hlt
      have h1le : 1 ≤ i - 1 := by omega
      have hm := hMono (i-1) h1le
      have hi1 : i - 1 + 1 = i := by omega
      rw [hi1] at hm
      linarith
    obtain ⟨newA, bF, sF, hrec, hlen⟩ := ih (i+1)
      (acc ++ [{ iteration := i, yantra_output := joinTokens ts, sutra_critique := c,
                 agni_output := t, score := A.score t,
                 improvement := if 1 < i then A.score t - prevScore acc else 0 }])
      (if best < A.score t then A.score t else best)
      (if best < A.score t then some t else bestSol)
      (by omega)
      (by
        intro _
        simp [prevScore, List.getLast?_concat, hsc])
    refine ⟨{ iteration := i, yantra_output := joinTokens ts, sutra_critique := c,
              agni_output := t, score := A.score t,
              improvement := if 1 < i then A.score t - prevScore acc else 0 } :: newA,
            bF, sF, ?_, by simp [hlen]⟩
    rw [orchestratorLoop]
    simp only [hy, hs, hag]
    rw [if_neg hnocond, hrec]
    simp

theorem map_eq_of_iteration {α β : Type} (g : Nat → β) :
    ∀ (l : List α) (f : α → β) (iterF : α → Nat),
      (∀ d ∈ l, f d = g (iterF d)) → l.map f = (l.map iterF).map g := by
  intro l
  induction l with
  | nil => intro f iterF _; rfl
  | cons d tl ih =>
    intro f iterF h
    simp only [List.map_cons]
    rw [h d (List.mem_cons_self _ _), ih f iterF (fun x hx => h x (List.mem_cons_of_mem _ hx))]

/-! ### Facts about the memory store -/

theorem storeHash_preserved (a : StoreArgs) (h : String) (s : MemoryRecord) :
    (if s.task_hash = h then overwriteRecord s a else s).task_hash = s.task_hash := by
  split
  · rfl
  · rfl

theorem find?_unique_hash (h : String) :
    ∀ (db : List MemoryRecord), UniqueHashes db → ∀ r ∈ db, r.task_hash = h →
      db.find? (fun s => s.task_hash == h) = some r := by
  intro db
  induction db with
  | nil => intro _ r hr; simp at hr
  | cons x tl ih =>
    intro hu r hr hrh
    rcases List.mem_cons.mp hr with rfl | hr'
    · rw [List.find?_cons_of_pos _ (by simp [hrh])]
    · have hx : x.task_hash ≠ h := by
        have := (List.pairwise_cons.mp hu).1 r hr'
        rw [hrh] at this
        exact this
      rw [List.find?_cons_of_neg _ (by simp [hx])]
      exact ih (List.pairwise_cons.mp hu).2 r hr' hrh

theorem smritiStore_unique (hash : String → String) (db : List MemoryRecord)
    (a : StoreArgs) (hu : UniqueHashes db) : UniqueHashes (smritiStore hash db a) := by
  unfold UniqueHashes at hu ⊢
  simp only [smritiStore]
  cases hfind : db.find? (fun r => r.task_hash == hash a.task) with
  | none =>
    simp only [hfind]
    rw [List.pairwise_append]
    refine ⟨hu, by simp, ?_⟩
    intro r hr s hs
    rcases List.mem_singleton.mp hs with rfl
    have := List.find?_eq_none.mp hfind r hr
    simpa [freshRecord] using this
  | some r0 =>
    simp only [hfind]
    split
    · rw [List.pairwise_map]
      refine hu.imp ?_
      intro x y hxy
      rw [storeHash_preserved, storeHash_preserved]
      exact hxy
    · exact hu

theorem applyStores_unique (hash : String → String) :
    ∀ (calls : List StoreArgs) (db : List MemoryRecord), UniqueHashes db →
      UniqueHashes (applyStores hash calls db) := by
  intro calls
  induction calls with
  | nil => intro db hu; exact hu
  | cons a tl ih =>
    intro db hu
    rw [applyStores, List.foldl_cons]
    exact ih (smritiStore hash db a) (smritiStore_unique hash db a hu)

theorem smritiStore_keeps (hash : String → String) (db : List MemoryRecord)
    (a : StoreArgs) (r : MemoryRecord) (hu : UniqueHashes db) (hr : r ∈ db)
    (hh : r.task_hash = hash a.task) (hsc : ¬ r.quality_score < a.quality_score) :
    smritiStore hash db a = db := by
  simp only [smritiStore]
  rw [find?_unique_hash (hash a.task) db hu r hr hh]
  simp only []
  rw [if_neg hsc]

theorem smritiStore_overwrites (hash : String → String) (db : List MemoryRecord)
    (a : StoreArgs) (r : MemoryRecord) (hu : UniqueHashes db) (hr : r ∈ db)
    (hh : r.task_hash = hash a.task) (hsc : r.quality_score < a.quality_score) :
    smritiStore hash db a =
      db.map (fun s => if s.task_hash = hash a.task then overwriteRecord s a else s) := by
  simp only [smritiStore]
  rw [find?_unique_hash (hash a.task) db hu r hr hh]
  simp only []
  rw [if_pos hsc]

theorem smritiStore_inserts (hash : String → String) (db : List MemoryRecord)
    (a : StoreArgs) (habsent : ∀ r ∈ db, r.task_hash ≠ hash a.task) :
    smritiStore hash db a = db ++ [freshRecord hash a] := by
  simp only [smritiStore]
  rw [List.find?_eq_none.mpr (fun x hx => by simpa using habsent x hx)]

/-! ### Remaining glue lemmas -/

theorem bestFold_pos_of_mem (L : List (ℚ × String)) (q : ℚ × String) (hq : q ∈ L)
    (hpos : 0 < q.1) : 0 < (List.foldl bestStep ((0 : ℚ), (none : Option String)) L).1 :=
  lt_of_lt_of_le hpos (bestFold_mem_le L (0, none) q hq)

theorem bestFold_snd_some (L : List (ℚ × String)) (hL : L ≠ [])
    (hpos : ∀ q ∈ L, 0 < q.1) :
    (List.foldl bestStep ((0 : ℚ), (none : Option String)) L).2 ≠ none := by
  obtain ⟨q, hq⟩ : ∃ q, q ∈ L := by
    cases L with
    | nil => exact absurd rfl hL
    | cons a t => exact ⟨a, List.mem_cons_self a t⟩
  have h1 : (0 : ℚ) < (List.foldl bestStep (0, none) L).1 :=
    bestFold_pos_of_mem L q hq (hpos q hq)
  obtain ⟨l1, r, l2, _, _, hsnd, _⟩ := bestFold_first_achiever L (0, none) h1
  rw [hsnd]
  simp

theorem liveLoop_error_none (A : Adapters) (minImp : ℚ) (fuel i : Nat)
    (acc : List LiveIterationData) (best : ℚ) (bestSol : Option String)
    (hy : ∀ j, ∃ ts, A.yantra j = .ok ts) (hs : ∀ j, ∃ c, A.sutra j = .ok c) :
    (liveLoop A minImp fuel i acc best bestSol).error = none := by
  have hm := liveLoop_master A minImp fuel i acc best bestSol
  unfold liveLoopSpec at hm
  obtain ⟨new, tail, _, _, _, _, _, _, h7, _, _, _, _⟩ := hm
  cases herr : (liveLoop A minImp fuel i acc best bestSol).error with
  | none => rfl
  | some e =>
    obtain ⟨_, hdisj⟩ := h7 e herr
    rcases hdisj with hyE | ⟨ts, hyOk, hsE⟩
    · obtain ⟨ts', hy'⟩ := hy (i + new.length)
      rw [hy'] at hyE
      simp at hyE
    · obtain ⟨c', hs'⟩ := hs (i + new.length)
      rw [hs'] at hsE
      simp at hsE

theorem orchestratorProcess_ok_inv (A : Adapters) (task : String) (maxIter : Nat)
    (minImp : ℚ) (res : SessionResult) (stores : List StoreCall)
    (h : orchestratorProcess A task maxIter minImp = .ok (res, stores)) :
    ∃ iters b s, orchestratorLoop A minImp maxIter 1 [] 0 none = .ok (iters, b, s) ∧
      res = { final_solution := s, final_score := b, iterations := iters,
              total_iterations := iters.length } ∧
      stores = (if 6/10 < b then
          [{ task := task, solution := s, quality_score := b }] else []) := by
  unfold orchestratorProcess at h
  cases hl : orchestratorLoop A minImp maxIter 1 [] 0 none with
  | error e =>
    rw [hl] at h
    simp at h
  | ok trip =>
    obtain ⟨iters, b, s⟩ := trip
    rw [hl] at h
    simp only [Except.ok.injEq] at h
    exact ⟨iters, b, s, rfl, (congrArg Prod.fst h).symm, (congrArg Prod.snd h).symm⟩

theorem liveAgniTextAt_of_ok {A : Adapters} {i : Nat} {t : String}
    (hag : A.agni i = .ok t) (htne : t ≠ "") : liveAgniTextAt A i = t := by
  simp [liveAgniTextAt, hag, htne]

theorem liveAgniTextAt_of_error {A : Adapters} {i : Nat} {e : String}
    (hag : A.agni i = .error e) : liveAgniTextAt A i = fallbackError := by
  simp [liveAgniTextAt, hag]

theorem rawAgniText_of_ok {A : Adapters} {i : Nat} {t : String}
    (hag : A.agni i = .ok t) : rawAgniText A i = t := by
  simp [rawAgniText, hag]

/-! ### Claim theorems -/

/-- Claim C8: every reachable memory store holds at most one record per task
fingerprint, and a store call for an already-present fingerprint overwrites
the record's solution, score, embedding and metadata exactly when the new
quality score is strictly greater than the stored one — otherwise the store
is left entirely unchanged; an absent fingerprint is inserted as a fresh
row. -/
theorem C8_memory_store_semantics (hash : String → String) :
    (∀ calls, UniqueHashes (applyStores hash calls [])) ∧
    (∀ db a r, UniqueHashes db → r ∈ db → r.task_hash = hash a.task →
      (¬ r.quality_score < a.quality_score → smritiStore hash db a = db) ∧
      (r.quality_score < a.quality_score →
        smritiStore hash db a =
          db.map (fun s => if s.task_hash = hash a.task then overwriteRecord s a else s))) ∧
    (∀ db a, (∀ r ∈ db, r.task_hash ≠ hash a.task) →
      smritiStore hash db a = db ++ [freshRecord hash a]) :=
  ⟨fun calls => applyStores_unique hash calls [] List.Pairwise.nil,
   fun db a r hu hr hh =>
     ⟨fun hsc => smritiStore_keeps hash db a r hu hr hh hsc,
      fun hsc => smritiStore_overwrites hash db a r hu hr hh hsc⟩,
   fun db a h => smritiStore_inserts hash db a h⟩

theorem C8_memory_store_semantics_witness :
    UniqueHashes (applyStores id [storeArgsLow, storeArgsHigh] []) ∧
    smritiStore id [memRecT] storeArgsLow = [memRecT] ∧
    smritiStore id [memRecT] storeArgsHigh =
      [memRecT].map (fun s => if s.task_hash = id storeArgsHigh.task
        then overwriteRecord s storeArgsHigh else s) := by
  refine ⟨(C8_memory_store_semantics id).1 [storeArgsLow, storeArgsHigh], ?_, ?_⟩
  · exact (((C8_memory_store_semantics id).2.1 [memRecT] storeArgsLow memRecT
      (by simp [UniqueHashes]) (by simp) (by simp [memRecT, storeArgsLow])).1
      (by norm_num [memRecT, storeArgsLow]))
  · exact (((C8_memory_store_semantics id).2.1 [memRecT] storeArgsHigh memRecT
      (by simp [UniqueHashes]) (by simp) (by simp [memRecT, storeArgsHigh])).2
      (by norm_num [memRecT, storeArgsHigh]))

/-- Claim C9: a request's background operation never alters the request's
result — the response is the same whatever the operation's outcome — and an
operation that raises is converted into a single log line naming the
operation; a successful operation logs nothing.  (The "returns immediately"
timing aspect is outside the shallow embedding; what is verified is that
the failure is caught, logged with the function's name, and never
propagated into the returned value.) -/
theorem C9_background_isolation {α : Type} (result : α) (funcName : String)
    (op op' : Except String Unit) :
    (submitWithBackground result funcName op).1 = result ∧
    (submitWithBackground result funcName op).1 = (submitWithBackground result funcName op').1 ∧
    (op = .ok () → (submitWithBackground result funcName op).2 = []) ∧
    (∀ e, op = .error e →
      (submitWithBackground result funcName op).2 =
        ["⚠️ Background task error (" ++ funcName ++ "): " ++ e]) := by
  refine ⟨rfl, rfl, ?_, ?_⟩
  · intro h
    simp [submitWithBackground, runBackgroundTaskLogs, h]
  · intro e h
    simp [submitWithBackground, runBackgroundTaskLogs, h]

theorem C9_background_isolation_witness :
    (Except.error "db down" = (Except.error "db down" : Except String Unit)) ∧
    (submitWithBackground 42 "record_task" (Except.error "db down")).2 =
      ["⚠️ Background task error (record_task): db down"] :=
  ⟨rfl,
   (C9_background_isolation 42 "record_task" (Except.error "db down")
     (Except.ok ())).2.2.2 "db down" rfl⟩

/-- Claim C10: for every feature profile of a solution, `Evaluator.evaluate`
returns a total in [0.25, 1], and in [0.5, 1] when `is_code` is true; the
empty string — no structure keyword, no pattern match, no import — scores
exactly 0.5 as code, so no candidate (including a degraded round's
placeholder text) ever receives a post-score of 0. -/
theorem C10_evaluator_total_bounds (is_code : Bool)
    (s1 s2 s3 s4 s5 s6 hchunks : Bool) (ov tu : Nat) (cit : Bool) (lc : Nat)
    (md : Bool) :
    1/4 ≤ evaluateTotal is_code s1 s2 s3 s4 s5 s6 hchunks ov tu cit lc md ∧
    evaluateTotal is_code s1 s2 s3 s4 s5 s6 hchunks ov tu cit lc md ≤ 1 ∧
    (is_code = true →
      1/2 ≤ evaluateTotal is_code s1 s2 s3 s4 s5 s6 hchunks ov tu cit lc md) ∧
    evaluateTotal true false false false false false false false 0 0 false 0 false = 1/2 := by
  have h4 : evaluateTotal true false false false false false false false 0 0 false 0 false
      = 1/2 := by
    norm_num [evaluateTotal, evaluate_code, min_def]
  cases is_code with
  | false =>
    have hb := evaluate_rag_total_bounds hchunks ov tu cit lc md
    refine ⟨?_, ?_, ?_, h4⟩
    · simpa [evaluateTotal] using hb.1
    · simpa [evaluateTotal] using hb.2
    · intro h
      simp at h
  | true =>
    have hb := evaluate_code_total_bounds s1 s2 s3 s4 s5 s6
    have h1 : evaluateTotal true s1 s2 s3 s4 s5 s6 hchunks ov tu cit lc md =
        (evaluate_code s1 s2 s3 s4 s5 s6).total := by
      simp [evaluateTotal]
    refine ⟨?_, ?_, fun _ => ?_, h4⟩
    · rw [h1]; linarith [hb.1]
    · rw [h1]; exact hb.2
    · rw [h1]; exact hb.1

theorem C10_evaluator_total_bounds_witness :
    (true = true) ∧
    1/2 ≤ evaluateTotal true false false false false false false false 0 0 false 0 false :=
  ⟨rfl, (C10_evaluator_total_bounds true false false false false false false
    false 0 0 false 0 false).2.2.1 rfl⟩

/-- Claim C5: every live session's event stream is the pre-round events
followed by one canonical block per completed round — `iteration_start`,
`first_response_started`, one `token` per generation token,
`first_response_complete`, `sutra_started`, `improving_started`, exactly
one `improved_token`, exactly one `improved` (same text twice), and
`iteration_complete`, in that order (see `roundBlockOf`) — with rounds in
1, 2, … order, and nothing after a round's block except the next round's
block, a failed round's partial events plus the `error` terminal, or the
optional `plateau_reached` plus the `end` terminal. -/
theorem C5_round_event_blocks (A : Adapters) (cfg : LiveConfig) :
    ∃ terminal,
      (liveRun A cfg).events = preEvents cfg ++
        ((liveRun A cfg).history.map (fun d => roundBlockOf A d)).join ++ terminal ∧
      (liveRun A cfg).history.map (fun d => d.iteration) =
        List.range' 1 (liveRun A cfg).history.length ∧
      ((∃ e, terminal =
          failedRoundEvents A (1 + (liveRun A cfg).history.length) ++ [Event.errorEv e]) ∨
        terminal = [Event.endEv cfg.task (liveRun A cfg).final_solution
          (liveRun A cfg).final_score (liveRun A cfg).history
          (liveRun A cfg).history.length cfg.use_rag] ∨
        terminal = Event.plateau_reached :: [Event.endEv cfg.task
          (liveRun A cfg).final_solution (liveRun A cfg).final_score
          (liveRun A cfg).history (liveRun A cfg).history.length cfg.use_rag]) := by
  have hm := liveLoop_master A cfg.min_improvement cfg.max_iterations 1 [] 0 none
  unfold liveLoopSpec at hm
  obtain ⟨new, tail, h1, h2, h3, h4, h5, h6, h7, h8, h9, h10, h11⟩ := hm
  cases herr : (liveLoop A cfg.min_improvement cfg.max_iterations 1 [] 0 none).error with
  | none =>
    have hrun : liveRun A cfg =
        { events := preEvents cfg ++
            (liveLoop A cfg.min_improvement cfg.max_iterations 1 [] 0 none).events
            ++ [Event.endEv cfg.task
                (liveLoop A cfg.min_improvement cfg.max_iterations 1 [] 0 none).best_solution
                (liveLoop A cfg.min_improvement cfg.max_iterations 1 [] 0 none).best_score
                (liveLoop A cfg.min_improvement cfg.max_iterations 1 [] 0 none).iterations
                (liveLoop A cfg.min_improvement cfg.max_iterations 1 [] 0 none).iterations.length
                cfg.use_rag],
          history := (liveLoop A cfg.min_improvement cfg.max_iterations 1 [] 0 none).iterations,
          final_score := (liveLoop A cfg.min_improvement cfg.max_iterations 1 [] 0 none).best_score,
          final_solution := (liveLoop A cfg.min_improvement cfg.max_iterations 1 [] 0 none).best_solution,
          errored := none,
          stores := if 6/10 < (liveLoop A cfg.min_improvement cfg.max_iterations 1 [] 0 none).best_score
            then [{ task := cfg.task,
                    solution := (liveLoop A cfg.min_improvement cfg.max_iterations 1 [] 0 none).best_solution,
                    quality_score := (liveLoop A cfg.min_improvement cfg.max_iterations 1 [] 0 none).best_score }]
            else [] } := by
      rw [liveRun, herr]
    have hhist : (liveRun A cfg).history = new := by rw [hrun]; simpa using h1
    refine ⟨tail ++ [Event.endEv cfg.task (liveRun A cfg).final_solution
      (liveRun A cfg).final_score (liveRun A cfg).history
      (liveRun A cfg).history.length cfg.use_rag], ?_, ?_, ?_⟩
    · rw [hrun]
      simp only [hhist, hrun]
      rw [h5]
      simp only [h1, List.nil_append, List.append_assoc]
    · rw [hhist]
      exact h3
    · rcases h6 herr with rfl | rfl
      · right; left; rfl
      · right; right; rfl
  | some e =>
    have hrun : liveRun A cfg =
        { events := preEvents cfg ++
            (liveLoop A cfg.min_improvement cfg.max_iterations 1 [] 0 none).events
            ++ [Event.errorEv e],
          history := (liveLoop A cfg.min_improvement cfg.max_iterations 1 [] 0 none).iterations,
          final_score := (liveLoop A cfg.min_improvement cfg.max_iterations 1 [] 0 none).best_score,
          final_solution := (liveLoop A cfg.min_improvement cfg.max_iterations 1 [] 0 none).best_solution,
          errored := some e, stores := [] } := by
      rw [liveRun, herr]
    have hhist : (liveRun A cfg).history = new := by rw [hrun]; simpa using h1
    obtain ⟨htail, _⟩ := h7 e herr
    refine ⟨tail ++ [Event.errorEv e], ?_, ?_, ?_⟩
    · rw [hrun]
      simp only [hhist, hrun]
      rw [h5]
      simp only [h1, List.nil_append, List.append_assoc]
    · rw [hhist]
      exact h3
    · left
      refine ⟨e, ?_⟩
      rw [htail, hhist]

/-- Claim C6 amended: every live session emits exactly one terminal event
(`end` or `error`), as the last event of the stream, even under mid-session
failure; the `end` payload carries the full round history, but the `error`
payload carries only the message — the partial history reaches the
consumer only through earlier `iteration_complete` events, not through the
terminal payload. -/
theorem C6_exactly_one_terminal (A : Adapters) (cfg : LiveConfig) :
    ∃ t, (liveRun A cfg).events.filter (fun e => isTerminal e) = [t] ∧
      (liveRun A cfg).events.getLast? = some t ∧
      ((liveRun A cfg).errored = none →
        t = Event.endEv cfg.task (liveRun A cfg).final_solution
          (liveRun A cfg).final_score (liveRun A cfg).history
          (liveRun A cfg).history.length cfg.use_rag) ∧
      (∀ e, (liveRun A cfg).errored = some e →
        t = Event.errorEv e ∧ payloadIterations t = none) := by
  have hloop := liveLoop_no_terminal A cfg.min_improvement cfg.max_iterations 1 [] 0 none
  have hpre := preEvents_no_terminal cfg
  have hfilpre : (preEvents cfg).filter (fun e => isTerminal e) = [] :=
    List.filter_eq_nil.mpr (fun a ha => by simp [hpre a ha])
  have hfilloop : ((liveLoop A cfg.min_improvement cfg.max_iterations 1 [] 0 none).events).filter
      (fun e => isTerminal e) = [] :=
    List.filter_eq_nil.mpr (fun a ha => by simp [hloop a ha])
  cases herr : (liveLoop A cfg.min_improvement cfg.max_iterations 1 [] 0 none).error with
  | none =>
    refine ⟨Event.endEv cfg.task
      (liveLoop A cfg.min_improvement cfg.max_iterations 1 [] 0 none).best_solution
      (liveLoop A cfg.min_improvement cfg.max_iterations 1 [] 0 none).best_score
      (liveLoop A cfg.min_improvement cfg.max_iterations 1 [] 0 none).iterations
      (liveLoop A cfg.min_improvement cfg.max_iterations 1 [] 0 none).iterations.length
      cfg.use_rag, ?_, ?_, ?_, ?_⟩
    · simp only [liveRun, herr]
      rw [List.filter_append, List.filter_append, hfilpre, hfilloop]
      rfl
    · simp only [liveRun, herr]
      exact List.getLast?_concat _
    · intro _
      simp [liveRun, herr]
    · intro e he
      simp [liveRun, herr] at he
  | some e0 =>
    refine ⟨Event.errorEv e0, ?_, ?_, ?_, ?_⟩
    · simp only [liveRun, herr]
      rw [List.filter_append, List.filter_append, hfilpre, hfilloop]
      rfl
    · simp only [liveRun, herr]
      exact List.getLast?_concat _
    · intro hnone
      simp [liveRun, herr] at hnone
    · intro e he
      simp only [liveRun, herr] at he
      simp only [Option.some.injEq] at he
      subst he
      exact ⟨rfl, rfl⟩

theorem C6_exactly_one_terminal_witness :
    ((liveRun adapters357 cfg357).events.filter (fun e => isTerminal e)).length = 1 := by
  obtain ⟨t, h1, _⟩ := C6_exactly_one_terminal adapters357 cfg357
  rw [h1]
  rfl

/-- Claim C6 counterexample: with a Generator failure on round 2, the only
terminal event of the session is `error "boom"`, whose payload (message
only) carries no round-history field — although one completed round exists
— so the terminal payload does not include the partial round history,
contrary to the claim. -/
theorem C6_error_terminal_lacks_history :
    (liveRun adaptersGenFail cfg357).events.filter (fun e => isTerminal e) =
      [Event.errorEv "boom"] ∧
    (liveRun adaptersGenFail cfg357).history.length = 1 ∧
    payloadIterations (Event.errorEv "boom") = none := by
  have herr : (liveLoop adaptersGenFail cfg357.min_improvement cfg357.max_iterations
      1 [] 0 none).error = some "boom" := by
    simp [liveLoop, adaptersGenFail, cfg357, scripted3, scorer357, joinTokens,
      lastLiveScore, wordCount, wordCountAux]
  refine ⟨?_, ?_, rfl⟩
  · simp only [liveRun, herr]
    rw [List.filter_append, List.filter_append,
      List.filter_eq_nil.mpr (fun a ha => by simp [preEvents_no_terminal cfg357 a ha]),
      List.filter_eq_nil.mpr (fun a ha => by
        simp [liveLoop_no_terminal adaptersGenFail cfg357.min_improvement
          cfg357.max_iterations 1 [] 0 none a ha])]
    rfl
  · simp [liveRun, liveLoop, adaptersGenFail, cfg357, scripted3, scorer357,
      joinTokens, preEvents, lastLiveScore, wordCount, wordCountAux]

theorem liveRun_of_none (A : Adapters) (cfg : LiveConfig)
    (herr : (liveLoop A cfg.min_improvement cfg.max_iterations 1 [] 0 none).error = none) :
    liveRun A cfg =
      { events := preEvents cfg ++
          (liveLoop A cfg.min_improvement cfg.max_iterations 1 [] 0 none).events
          ++ [Event.endEv cfg.task
              (liveLoop A cfg.min_improvement cfg.max_iterations 1 [] 0 none).best_solution
              (liveLoop A cfg.min_improvement cfg.max_iterations 1 [] 0 none).best_score
              (liveLoop A cfg.min_improvement cfg.max_iterations 1 [] 0 none).iterations
              (liveLoop A cfg.min_improvement cfg.max_iterations 1 [] 0 none).iterations.length
              cfg.use_rag],
        history := (liveLoop A cfg.min_improvement cfg.max_iterations 1 [] 0 none).iterations,
        final_score := (liveLoop A cfg.min_improvement cfg.max_iterations 1 [] 0 none).best_score,
        final_solution := (liveLoop A cfg.min_improvement cfg.max_iterations 1 [] 0 none).best_solution,
        errored := none,
        stores := if 6/10 <
            (liveLoop A cfg.min_improvement cfg.max_iterations 1 [] 0 none).best_score
          then [{ task := cfg.task,
                  solution := (liveLoop A cfg.min_improvement cfg.max_iterations 1 [] 0 none).best_solution,
                  quality_score := (liveLoop A cfg.min_improvement cfg.max_iterations 1 [] 0 none).best_score }]
          else [] } := by
  rw [liveRun, herr]

/-- Claim C2 counterexample: a Generator (Yantra) failure on round 2 of a
3-round session is not converted into a degraded round — the live session
aborts after 1 completed round with an `error` terminal event (no `end`,
no `total_iterations = 3`), and the aggregate session propagates the
exception; even an Improver failure aborts the aggregate session, which
has no fallback. -/
theorem C2_generator_failure_aborts :
    (liveRun adaptersGenFail cfg357).errored = some "boom" ∧
    (liveRun adaptersGenFail cfg357).history.length = 1 ∧
    (liveRun adaptersGenFail cfg357).events.getLast? = some (Event.errorEv "boom") ∧
    orchestratorProcess adaptersGenFail "t" 3 (1/100) = .error "boom" ∧
    orchestratorProcess adaptersAgniFail "t" 3 (1/100) = .error "boom2" := by
  have herr : (liveLoop adaptersGenFail cfg357.min_improvement cfg357.max_iterations
      1 [] 0 none).error = some "boom" := by
    simp [liveLoop, adaptersGenFail, cfg357, scripted3, scorer357, joinTokens,
      lastLiveScore, wordCount, wordCountAux]
  refine ⟨?_, ?_, ?_, ?_, ?_⟩
  · simp [liveRun, herr]
  · simp [liveRun, herr, liveLoop, adaptersGenFail, cfg357, scripted3, scorer357,
      joinTokens, lastLiveScore, wordCount, wordCountAux]
  · simp only [liveRun, herr]
    exact List.getLast?_concat _
  · simp [orchestratorProcess, orchestratorLoop, adaptersGenFail, cfg357, scripted3,
      scorer357, joinTokens, prevScore]
  · simp [orchestratorProcess, orchestratorLoop, adaptersAgniFail, cfg357, scripted3,
      scorer357, joinTokens, prevScore]

/-- Claim C2 amended: only the Improver (Agni) call in the live path is
guarded — when the Generator and Critic succeed, an Improver failure (or
empty reply) on any round is converted into fallback text, the loop
continues, and the session still ends with a single `end` terminal event
and a non-null final solution; with the default positive
`min_improvement`, however, a session with `max_iterations ≥ 2` stops
after round 2 (the self-comparing plateau check), so `total_iterations` is
2, not 3.  Generator and Critic failures abort the session (error event in
live mode, propagated exception in aggregate mode, see the
counterexample). -/
theorem C2_improver_failure_degraded (A : Adapters) (cfg : LiveConfig)
    (hy : ∀ j, ∃ ts, A.yantra j = .ok ts) (hs : ∀ j, ∃ c, A.sutra j = .ok c)
    (hpos : ∀ s, 0 < A.score s) (hone : 1 ≤ cfg.max_iterations) :
    (liveRun A cfg).errored = none ∧
    (∃ evs, (liveRun A cfg).events = evs ++ [Event.endEv cfg.task
      (liveRun A cfg).final_solution (liveRun A cfg).final_score
      (liveRun A cfg).history (liveRun A cfg).history.length cfg.use_rag]) ∧
    (liveRun A cfg).final_solution ≠ none ∧
    1 ≤ (liveRun A cfg).history.length ∧
    (∀ d ∈ (liveRun A cfg).history, ∀ e, A.agni d.iteration = .error e →
      d.agni_output = fallbackError) ∧
    (0 < cfg.min_improvement → 2 ≤ cfg.max_iterations →
      (liveRun A cfg).history.length = 2) := by
  have herr : (liveLoop A cfg.min_improvement cfg.max_iterations 1 [] 0 none).error = none :=
    liveLoop_error_none A cfg.min_improvement cfg.max_iterations 1 [] 0 none hy hs
  have hrun := liveRun_of_none A cfg herr
  have hm := liveLoop_master A cfg.min_improvement cfg.max_iterations 1 [] 0 none
  unfold liveLoopSpec at hm
  obtain ⟨new, tail, h1, h2, h3, h4, h5, h6, h7, h8, h9, h10, h11⟩ := hm
  have hnil : new ≠ [] := h9 (by omega) herr
  have hhist : (liveRun A cfg).history = new := by
    rw [hrun]
    simpa using h1
  refine ⟨?_, ?_, ?_, ?_, ?_, ?_⟩
  · rw [hrun]
  · refine ⟨preEvents cfg ++
      (liveLoop A cfg.min_improvement cfg.max_iterations 1 [] 0 none).events, ?_⟩
    rw [hrun]
  · have hLne : new.map (fun d => (d.agni_score, d.agni_output)) ≠ [] := by
      intro hmap
      exact hnil (List.map_eq_nil.mp hmap)
    have hqpos : ∀ q ∈ new.map (fun d => (d.agni_score, d.agni_output)), 0 < q.1 := by
      intro q hq
      obtain ⟨d, hd, rfl⟩ := List.mem_map.mp hq
      obtain ⟨_, hsc, _⟩ := h4 d hd
      rw [hsc]
      exact hpos _
    have hsnd := bestFold_snd_some _ hLne hqpos
    have hsol : (liveLoop A cfg.min_improvement cfg.max_iterations 1 [] 0 none).best_solution =
        (List.foldl bestStep ((0:ℚ), (none : Option String))
          (new.map (fun d => (d.agni_score, d.agni_output)))).2 := by
      have h2' := congrArg Prod.snd h2
      simpa using h2'
    rw [hrun]
    simp only []
    rw [hsol]
    exact hsnd
  · rw [hhist]
    have : 0 < new.length := List.length_pos.mpr hnil
    omega
  · intro d hd e hag
    rw [hhist] at hd
    obtain ⟨hout, _, _⟩ := h4 d hd
    rw [hout]
    exact liveAgniTextAt_of_error hag
  · intro hposImp htwo
    rw [hhist]
    have := h10 herr hposImp (le_refl 1)
    rw [this]
    simp only [if_neg (by omega : ¬ 1 < 1)]
    omega

theorem C2_improver_failure_degraded_witness :
    (∀ j, ∃ ts, adaptersC2w.yantra j = .ok ts) ∧
    (∀ s, (0 : ℚ) < adaptersC2w.score s) ∧
    ((liveRun adaptersC2w cfg357).errored = none ∧
      (liveRun adaptersC2w cfg357).final_solution ≠ none ∧
      (liveRun adaptersC2w cfg357).history.length = 2) := by
  have h := C2_improver_failure_degraded adaptersC2w cfg357
    (fun j => ⟨["g"], rfl⟩) (fun j => ⟨"c", rfl⟩)
    (fun s => by norm_num [adaptersC2w]) (by norm_num [cfg357])
  exact ⟨fun j => ⟨["g"], rfl⟩, fun s => by norm_num [adaptersC2w],
    h.1, h.2.2.1, h.2.2.2.2.2 (by norm_num [cfg357]) (by norm_num [cfg357])⟩

theorem liveRun_of_some (A : Adapters) (cfg : LiveConfig) (e : String)
    (herr : (liveLoop A cfg.min_improvement cfg.max_iterations 1 [] 0 none).error = some e) :
    liveRun A cfg =
      { events := preEvents cfg ++
          (liveLoop A cfg.min_improvement cfg.max_iterations 1 [] 0 none).events
          ++ [Event.errorEv e],
        history := (liveLoop A cfg.min_improvement cfg.max_iterations 1 [] 0 none).iterations,
        final_score := (liveLoop A cfg.min_improvement cfg.max_iterations 1 [] 0 none).best_score,
        final_solution := (liveLoop A cfg.min_improvement cfg.max_iterations 1 [] 0 none).best_solution,
        errored := some e, stores := [] } := by
  rw [liveRun, herr]

theorem liveRun_history (A : Adapters) (cfg : LiveConfig) :
    (liveRun A cfg).history =
      (liveLoop A cfg.min_improvement cfg.max_iterations 1 [] 0 none).iterations := by
  cases hE : (liveLoop A cfg.min_improvement cfg.max_iterations 1 [] 0 none).error with
  | none => rw [liveRun_of_none A cfg hE]
  | some e => rw [liveRun_of_some A cfg e hE]

theorem liveRun_final_score (A : Adapters) (cfg : LiveConfig) :
    (liveRun A cfg).final_score =
      (liveLoop A cfg.min_improvement cfg.max_iterations 1 [] 0 none).best_score := by
  cases hE : (liveLoop A cfg.min_improvement cfg.max_iterations 1 [] 0 none).error with
  | none => rw [liveRun_of_none A cfg hE]
  | some e => rw [liveRun_of_some A cfg e hE]

theorem liveRun_final_solution (A : Adapters) (cfg : LiveConfig) :
    (liveRun A cfg).final_solution =
      (liveLoop A cfg.min_improvement cfg.max_iterations 1 [] 0 none).best_solution := by
  cases hE : (liveLoop A cfg.min_improvement cfg.max_iterations 1 [] 0 none).error with
  | none => rw [liveRun_of_none A cfg hE]
  | some e => rw [liveRun_of_some A cfg e hE]

theorem bestFold_claims (L : List (ℚ × String)) (b : ℚ) (s : Option String)
    (hfold : (b, s) = List.foldl bestStep ((0 : ℚ), (none : Option String)) L)
    (hLpos : ∀ q ∈ L, 0 < q.1) (hLne : L ≠ []) :
    (∃ q ∈ L, q.1 = b) ∧ (∀ q ∈ L, q.1 ≤ b) ∧
    (∃ l1 q l2, L = l1 ++ q :: l2 ∧ q.1 = b ∧ s = some q.2 ∧ ∀ x ∈ l1, x.1 < q.1) := by
  have hb : b = (List.foldl bestStep ((0 : ℚ), (none : Option String)) L).1 :=
    congrArg Prod.fst hfold
  have hs : s = (List.foldl bestStep ((0 : ℚ), (none : Option String)) L).2 :=
    congrArg Prod.snd hfold
  obtain ⟨q0, hq0⟩ : ∃ q, q ∈ L := by
    cases L with
    | nil => exact absurd rfl hLne
    | cons a t => exact ⟨a, List.mem_cons_self a t⟩
  have hposfold : (0 : ℚ) < (List.foldl bestStep ((0 : ℚ), (none : Option String)) L).1 :=
    bestFold_pos_of_mem L q0 hq0 (hLpos q0 hq0)
  refine ⟨?_, ?_, ?_⟩
  · rcases bestFold_fst_mem L (0, none) with hz | ⟨q, hq, hfq⟩
    · exfalso
      rw [hz] at hposfold
      simp at hposfold
    · exact ⟨q, hq, by rw [hb, hfq]⟩
  · intro q hq
    rw [hb]
    exact bestFold_mem_le L (0, none) q hq
  · obtain ⟨l1, q, l2, hd, h1, h2, h3⟩ :=
      bestFold_first_achiever L (0, none) (by simpa using hposfold)
    refine ⟨l1, q, l2, hd, ?_, ?_, h3⟩
    · rw [hb]
      exact h1
    · rw [hs]
      exact h2

/-- Claim C3: in both delivery modes, the running best is exactly the
`bestStep` fold of the round history (so it is non-decreasing as rounds
are appended — each extension of the folded history can only raise it),
after the final round `best_score` equals the maximum post-score of the
history (it is attained by a round and bounds every round), and
`best_solution` is the improved text of the first round attaining that
maximum — a later tie does not replace it.  Scores are assumed positive,
as guaranteed by the evaluator (claim C10: every total is at least 0.25). -/
theorem C3_best_score_invariant (A : Adapters) (task : String) (maxIter : Nat)
    (minImp : ℚ) (cfg : LiveConfig) (hpos : ∀ s, 0 < A.score s) :
    (∀ res stores, orchestratorProcess A task maxIter minImp = .ok (res, stores) →
      (∀ n, (List.foldl bestStep ((0 : ℚ), (none : Option String))
          ((res.iterations.map (fun d => (d.score, d.agni_output))).take n)).1 ≤
        (List.foldl bestStep ((0 : ℚ), (none : Option String))
          ((res.iterations.map (fun d => (d.score, d.agni_output))).take (n+1))).1) ∧
      (res.final_score, res.final_solution) = List.foldl bestStep (0, none)
        (res.iterations.map (fun d => (d.score, d.agni_output))) ∧
      (res.iterations ≠ [] →
        (∃ d ∈ res.iterations, d.score = res.final_score) ∧
        (∀ d ∈ res.iterations, d.score ≤ res.final_score) ∧
        (∃ l1 q l2, res.iterations.map (fun d => (d.score, d.agni_output)) = l1 ++ q :: l2 ∧
          q.1 = res.final_score ∧ res.final_solution = some q.2 ∧ ∀ x ∈ l1, x.1 < q.1))) ∧
    ((∀ n, (List.foldl bestStep ((0 : ℚ), (none : Option String))
        (((liveRun A cfg).history.map (fun d => (d.agni_score, d.agni_output))).take n)).1 ≤
      (List.foldl bestStep ((0 : ℚ), (none : Option String))
        (((liveRun A cfg).history.map (fun d => (d.agni_score, d.agni_output))).take (n+1))).1) ∧
    ((liveRun A cfg).final_score, (liveRun A cfg).final_solution) =
      List.foldl bestStep (0, none)
        ((liveRun A cfg).history.map (fun d => (d.agni_score, d.agni_output))) ∧
    ((liveRun A cfg).history ≠ [] →
      (∃ d ∈ (liveRun A cfg).history, d.agni_score = (liveRun A cfg).final_score) ∧
      (∀ d ∈ (liveRun A cfg).history, d.agni_score ≤ (liveRun A cfg).final_score) ∧
      (∃ l1 q l2, (liveRun A cfg).history.map (fun d => (d.agni_score, d.agni_output)) =
          l1 ++ q :: l2 ∧
        q.1 = (liveRun A cfg).final_score ∧
        (liveRun A cfg).final_solution = some q.2 ∧ ∀ x ∈ l1, x.1 < q.1))) := by
  constructor
  · intro res stores h
    obtain ⟨iters, b, s, hl, hres, hstores⟩ :=
      orchestratorProcess_ok_inv A task maxIter minImp res stores h
    obtain ⟨new, hiters, hfold, hrange, hmem⟩ :=
      orchestratorLoop_ok A minImp maxIter 1 [] 0 none iters b s hl
    have hiters' : iters = new := by simpa using hiters
    subst hiters'
    subst hres
    simp only []
    refine ⟨fun n => bestFold_take_mono _ _ n, hfold, ?_⟩
    intro hne
    have hLpos : ∀ q ∈ iters.map (fun d => (d.score, d.agni_output)), 0 < q.1 := by
      intro q hq
      obtain ⟨d, hd, rfl⟩ := List.mem_map.mp hq
      obtain ⟨_, hsc⟩ := hmem d hd
      rw [hsc]
      exact hpos _
    have hLne : iters.map (fun d => (d.score, d.agni_output)) ≠ [] := by
      intro hmap
      exact hne (List.map_eq_nil.mp hmap)
    obtain ⟨hmem', hle', hfirst'⟩ := bestFold_claims _ b s hfold hLpos hLne
    refine ⟨?_, ?_, hfirst'⟩
    · obtain ⟨q, hq, hq1⟩ := hmem'
      obtain ⟨d, hd, rfl⟩ := List.mem_map.mp hq
      exact ⟨d, hd, hq1⟩
    · intro d hd
      exact hle' (d.score, d.agni_output) (List.mem_map.mpr ⟨d, hd, rfl⟩)
  · have hm := liveLoop_master A cfg.min_improvement cfg.max_iterations 1 [] 0 none
    unfold liveLoopSpec at hm
    obtain ⟨new, tail, h1, h2, h3, h4, h5, h6, h7, h8, h9, h10, h11⟩ := hm
    have hh : (liveRun A cfg).history = new := by
      rw [liveRun_history]
      simpa using h1
    have hfold : ((liveRun A cfg).final_score, (liveRun A cfg).final_solution) =
        List.foldl bestStep (0, none)
          ((liveRun A cfg).history.map (fun d => (d.agni_score, d.agni_output))) := by
      rw [liveRun_final_score, liveRun_final_solution, hh]
      exact h2
    refine ⟨fun n => bestFold_take_mono _ _ n, hfold, ?_⟩
    intro hne
    have hLpos : ∀ q ∈ (liveRun A cfg).history.map (fun d => (d.agni_score, d.agni_output)),
        0 < q.1 := by
      intro q hq
      obtain ⟨d, hd, rfl⟩ := List.mem_map.mp hq
      rw [hh] at hd
      obtain ⟨_, hsc, _⟩ := h4 d hd
      rw [hsc]
      exact hpos _
    have hLne : (liveRun A cfg).history.map (fun d => (d.agni_score, d.agni_output)) ≠ [] := by
      intro hmap
      exact hne (List.map_eq_nil.mp hmap)
    obtain ⟨hmem', hle', hfirst'⟩ := bestFold_claims _ _ _ hfold hLpos hLne
    refine ⟨?_, ?_, hfirst'⟩
    · obtain ⟨q, hq, hq1⟩ := hmem'
      obtain ⟨d, hd, rfl⟩ := List.mem_map.mp hq
      exact ⟨d, hd, hq1⟩
    · intro d hd
      exact hle' (d.agni_score, d.agni_output) (List.mem_map.mpr ⟨d, hd, rfl⟩)

theorem C3_best_score_invariant_witness :
    (∀ s, (0 : ℚ) < adaptersC3w.score s) ∧
    ((liveRun adaptersC3w cfg357).final_score, (liveRun adaptersC3w cfg357).final_solution) =
      List.foldl bestStep (0, none)
        ((liveRun adaptersC3w cfg357).history.map (fun d => (d.agni_score, d.agni_output))) :=
  ⟨fun s => by norm_num [adaptersC3w],
   (C3_best_score_invariant adaptersC3w "t" 3 (1/100) cfg357
     (fun s => by norm_num [adaptersC3w])).2.2.1⟩

/-- Claim C7: in both modes a `Smriti.store` call is issued exactly when
the session's final `best_score` is strictly greater than 0.6 — one call,
carrying the task, the best solution and that score — and no call
otherwise (nor when a live session aborts before reaching the store step);
the final `best_score` compared against the 0.6 floor is precisely the
`bestStep` fold (the maximum, by C3's lemmas) of the round history. -/
theorem C7_store_iff_threshold (A : Adapters) (task : String) (maxIter : Nat)
    (minImp : ℚ) (cfg : LiveConfig) :
    (∀ res stores, orchestratorProcess A task maxIter minImp = .ok (res, stores) →
      (6/10 < res.final_score → stores =
        [{ task := task, solution := res.final_solution, quality_score := res.final_score }]) ∧
      (¬ 6/10 < res.final_score → stores = []) ∧
      (res.final_score, res.final_solution) = List.foldl bestStep (0, none)
        (res.iterations.map (fun d => (d.score, d.agni_output)))) ∧
    ((liveRun A cfg).errored = none →
      (6/10 < (liveRun A cfg).final_score → (liveRun A cfg).stores =
        [{ task := cfg.task, solution := (liveRun A cfg).final_solution,
           quality_score := (liveRun A cfg).final_score }]) ∧
      (¬ 6/10 < (liveRun A cfg).final_score → (liveRun A cfg).stores = [])) ∧
    ((liveRun A cfg).errored ≠ none → (liveRun A cfg).stores = []) ∧
    ((liveRun A cfg).final_score, (liveRun A cfg).final_solution) =
      List.foldl bestStep (0, none)
        ((liveRun A cfg).history.map (fun d => (d.agni_score, d.agni_output))) := by
  refine ⟨?_, ?_, ?_, ?_⟩
  · intro res stores h
    obtain ⟨iters, b, s, hl, hres, hstores⟩ :=
      orchestratorProcess_ok_inv A task maxIter minImp res stores h
    obtain ⟨new, hiters, hfold, _, _⟩ :=
      orchestratorLoop_ok A minImp maxIter 1 [] 0 none iters b s hl
    have hiters' : iters = new := by simpa using hiters
    subst hiters'
    subst hres
    exact ⟨fun hgt => by rw [hstores, if_pos hgt],
           fun hng => by rw [hstores, if_neg hng], hfold⟩
  · intro hnone
    cases hE : (liveLoop A cfg.min_improvement cfg.max_iterations 1 [] 0 none).error with
    | some e =>
      exfalso
      rw [liveRun_of_some A cfg e hE] at hnone
      simp at hnone
    | none =>
      have hrun := liveRun_of_none A cfg hE
      constructor
      · intro hgt
        have hgt' : 6/10 <
            (liveLoop A cfg.min_improvement cfg.max_iterations 1 [] 0 none).best_score := by
          rw [← liveRun_final_score A cfg]
          exact hgt
        rw [hrun]
        simp only []
        rw [if_pos hgt']
      · intro hng
        have hng' : ¬ 6/10 <
            (liveLoop A cfg.min_improvement cfg.max_iterations 1 [] 0 none).best_score := by
          rw [← liveRun_final_score A cfg]
          exact hng
        rw [hrun]
        simp only []
        rw [if_neg hng']
  · intro hne
    cases hE : (liveLoop A cfg.min_improvement cfg.max_iterations 1 [] 0 none).error with
    | none =>
      exfalso
      rw [liveRun_of_none A cfg hE] at hne
      simp at hne
    | some e =>
      rw [liveRun_of_some A cfg e hE]
  · have hm := liveLoop_master A cfg.min_improvement cfg.max_iterations 1 [] 0 none
    unfold liveLoopSpec at hm
    obtain ⟨new, tail, h1, h2, _, _, _, _, _, _, _, _, _⟩ := hm
    have hit : (liveLoop A cfg.min_improvement cfg.max_iterations 1 [] 0 none).iterations
        = new := by simpa using h1
    rw [liveRun_final_score, liveRun_final_solution, liveRun_history, hit]
    exact h2

theorem scorer59_a : scorer59 "a59" = 59/100 := by simp [scorer59]

theorem scorer59_g : scorer59 "g" = 1/10 := by simp [scorer59]

theorem scorer75_a : scorer75 "a75" = 3/4 := by simp [scorer75]

theorem scorer75_g : scorer75 "g" = 1/10 := by simp [scorer75]

theorem C7_store_iff_threshold_witness :
    (liveRun adapters59 cfg357).stores = [] ∧
    (liveRun adapters75 cfg357).stores =
      [{ task := "t", solution := some "a75", quality_score := 3/4 }] := by
  have herr59 : (liveRun adapters59 cfg357).errored = none := by
    simp [liveRun, liveLoop, adapters59, cfg357, scorer59_a, scorer59_g, joinTokens,
      preEvents, lastLiveScore, wordCount, wordCountAux]
  have hfs59 : (liveRun adapters59 cfg357).final_score = 59/100 := by
    simp [liveRun, liveLoop, adapters59, cfg357, scorer59_a, scorer59_g, joinTokens,
      preEvents, lastLiveScore, wordCount, wordCountAux]
  have herr75 : (liveRun adapters75 cfg357).errored = none := by
    simp [liveRun, liveLoop, adapters75, cfg357, scorer75_a, scorer75_g, joinTokens,
      preEvents, lastLiveScore, wordCount, wordCountAux]
  have hfs75 : (liveRun adapters75 cfg357).final_score = 3/4 := by
    simp [liveRun, liveLoop, adapters75, cfg357, scorer75_a, scorer75_g, joinTokens,
      preEvents, lastLiveScore, wordCount, wordCountAux]
  have hsol75 : (liveRun adapters75 cfg357).final_solution = some "a75" := by
    simp [liveRun, liveLoop, adapters75, cfg357, scorer75_a, scorer75_g, joinTokens,
      preEvents, lastLiveScore, wordCount, wordCountAux]
  constructor
  · exact ((C7_store_iff_threshold adapters59 "t" 3 (1/100) cfg357).2.1 herr59).2
      (by rw [hfs59]; norm_num)
  · have hstore := ((C7_store_iff_threshold adapters75 "t" 3 (1/100) cfg357).2.1 herr75).1
      (by rw [hfs75]; norm_num)
    rw [hstore, hfs75, hsol75]
    rfl

/-- Claim C1: the plateau rule says both paths stop iff `round > 1` and
`post_score[n] - post_score[n-1] < min_improvement`; with the scripted
scorer [0.3, 0.5, 0.7], max_iterations = 3 and min_improvement = 0.01 the
claim asserts both paths run 3 full rounds.  The aggregate path does
(orchestrator.py reads `iterations[-2]` after the append), but the live
path reads `iterations[-1]` after the append (api.py line 344), so its
improvement is always 0 < 0.01 and it stops with `plateau_reached` after
round 2 with final score 0.5 instead of 0.7 — a code bug. -/
theorem C1_plateau_rule_divergence :
    orchestratorProcess adapters357 "t" 3 (1/100) = .ok
      ({ final_solution := some "a3", final_score := 7/10,
         iterations := [
           { iteration := 1, yantra_output := "g", sutra_critique := "c",
             agni_output := "a1", score := 3/10, improvement := 0 },
           { iteration := 2, yantra_output := "g", sutra_critique := "c",
             agni_output := "a2", score := 1/2, improvement := 1/5 },
           { iteration := 3, yantra_output := "g", sutra_critique := "c",
             agni_output := "a3", score := 7/10, improvement := 1/5 }],
         total_iterations := 3 },
       [{ task := "t", solution := some "a3", quality_score := 7/10 }]) ∧
    (liveRun adapters357 cfg357).history.length = 2 ∧
    (liveRun adapters357 cfg357).final_score = 1/2 ∧
    (liveRun adapters357 cfg357).final_solution = some "a2" ∧
    Event.plateau_reached ∈ (liveRun adapters357 cfg357).events := by
  refine ⟨?_, ?_, ?_, ?_, ?_⟩
  · simp [orchestratorProcess, orchestratorLoop, adapters357, scripted3,
      scorer357, joinTokens, prevScore]
    norm_num
  · simp [liveRun, liveLoop, adapters357, scripted3, scorer357, cfg357,
      joinTokens, preEvents, lastLiveScore, wordCount, wordCountAux, fallbackEmpty]
  · simp [liveRun, liveLoop, adapters357, scripted3, scorer357, cfg357,
      joinTokens, preEvents, lastLiveScore, wordCount, wordCountAux, fallbackEmpty]
    rw [if_neg (by decide : ¬ ("a2" = "a1"))]
    norm_num
  · simp [liveRun, liveLoop, adapters357, scripted3, scorer357, cfg357,
      joinTokens, preEvents, lastLiveScore, wordCount, wordCountAux, fallbackEmpty]
    rw [if_neg (by decide : ¬ ("a2" = "a1"))]
    norm_num
  · simp [liveRun, liveLoop, adapters357, scripted3, scorer357, cfg357,
      joinTokens, preEvents, lastLiveScore, wordCount, wordCountAux, fallbackEmpty]

theorem C4_modes_diverge :
    (∃ res stores,
        orchestratorProcess adapters357 cfg357.task cfg357.max_iterations
          cfg357.min_improvement = .ok (res, stores) ∧
        res.total_iterations = 3 ∧ res.final_score = 7/10 ∧
        res.final_solution = some "a3") ∧
    (liveRun adapters357 cfg357).history.length = 2 ∧
    (liveRun adapters357 cfg357).final_score = 1/2 ∧
    (liveRun adapters357 cfg357).final_solution = some "a2" := by
  refine ⟨⟨⟨some "a3", 7/10,
      [⟨1, "g", "c", "a1", 3/10, 0⟩, ⟨2, "g", "c", "a2", 1/2, 1/5⟩,
       ⟨3, "g", "c", "a3", 7/10, 1/5⟩], 3⟩,
    [⟨"t", some "a3", 7/10⟩],
    ?_, rfl, rfl, rfl⟩, ?_, ?_, ?_⟩
  · simp [orchestratorProcess, orchestratorLoop, adapters357, scripted3,
      scorer357, joinTokens, prevScore, cfg357]
    norm_num
  · simp [liveRun, liveLoop, adapters357, scripted3, scorer357, cfg357,
      joinTokens, preEvents, lastLiveScore, wordCount, wordCountAux, fallbackEmpty]
  · simp [liveRun, liveLoop, adapters357, scripted3, scorer357, cfg357,
      joinTokens, preEvents, lastLiveScore, wordCount, wordCountAux, fallbackEmpty]
    rw [if_neg (by decide : ¬ ("a2" = "a1"))]
    norm_num
  · simp [liveRun, liveLoop, adapters357, scripted3, scorer357, cfg357,
      joinTokens, preEvents, lastLiveScore, wordCount, wordCountAux, fallbackEmpty]
    rw [if_neg (by decide : ¬ ("a2" = "a1"))]
    norm_num

/-- Claim C4: with identical adapter responses the two delivery modes
produce the same session outcome.  As stated this is refuted by
`C4_modes_diverge` (the live plateau bug, see C1).  The amended, provable
equivalence: when the adapters never raise, the Improver never returns the
empty string, min_improvement is non-positive (disabling the divergent
plateau checks) and aggregate post-scores are non-decreasing, both modes
run the same rounds with equal per-round improved texts and post-scores,
and the SessionResult equals the end-event payload: same total_iterations,
final_score, final_solution and store calls, with the end event last. -/
theorem C4_modes_agree (A : Adapters) (cfg : LiveConfig)
    (hT : TotalAdapters A) (hImp : cfg.min_improvement ≤ 0)
    (hMono : ∀ i, 1 ≤ i → aggScoreAt A i ≤ aggScoreAt A (i+1)) :
    ∃ res stores,
      orchestratorProcess A cfg.task cfg.max_iterations cfg.min_improvement
        = .ok (res, stores) ∧
      res.total_iterations = (liveRun A cfg).history.length ∧
      res.final_score = (liveRun A cfg).final_score ∧
      res.final_solution = (liveRun A cfg).final_solution ∧
      res.iterations.map (fun d => (d.iteration, d.agni_output, d.score)) =
        (liveRun A cfg).history.map (fun d => (d.iteration, d.agni_output, d.score)) ∧
      stores = (liveRun A cfg).stores ∧
      (liveRun A cfg).events.getLast? = some (Event.endEv cfg.task
        (liveRun A cfg).final_solution (liveRun A cfg).final_score
        (liveRun A cfg).history (liveRun A cfg).history.length cfg.use_rag) := by
  obtain ⟨newA, bF, sF, hloop, hlenA⟩ :=
    orchestratorLoop_total A cfg.min_improvement hT hImp hMono cfg.max_iterations 1 [] 0 none
      (le_refl 1) (fun h => absurd h (by norm_num))
  have hproc : orchestratorProcess A cfg.task cfg.max_iterations cfg.min_improvement = .ok
      ({ final_solution := sF, final_score := bF, iterations := [] ++ newA,
         total_iterations := ([] ++ newA).length },
       if 6/10 < bF then
         [{ task := cfg.task, solution := sF, quality_score := bF }] else []) := by
    unfold orchestratorProcess
    rw [hloop]
  obtain ⟨newA', hitersA, hfoldA, hrangeA, hmemA⟩ :=
    orchestratorLoop_ok A cfg.min_improvement cfg.max_iterations 1 [] 0 none
      ([] ++ newA) bF sF hloop
  have hAA : newA = newA' := by simpa using hitersA
  subst hAA
  have hyTot : ∀ j, ∃ ts, A.yantra j = .ok ts := fun j => (hT j).1
  have hsTot : ∀ j, ∃ c, A.sutra j = .ok c := fun j => (hT j).2.1
  have herr : (liveLoop A cfg.min_improvement cfg.max_iterations 1 [] 0 none).error = none :=
    liveLoop_error_none A cfg.min_improvement cfg.max_iterations 1 [] 0 none hyTot hsTot
  have hm := liveLoop_master A cfg.min_improvement cfg.max_iterations 1 [] 0 none
  unfold liveLoopSpec at hm
  obtain ⟨newL, tail, h1, h2, h3, h4, _, _, _, _, _, _, h11⟩ := hm
  have hlenL : newL.length = cfg.max_iterations := h11 herr hImp
  have hhist : (liveLoop A cfg.min_improvement cfg.max_iterations 1 [] 0 none).iterations
      = newL := by simpa using h1
  have hrawL : ∀ j, liveAgniTextAt A j = rawAgniText A j := by
    intro j
    obtain ⟨t, hag, htne⟩ := (hT j).2.2
    rw [liveAgniTextAt_of_ok hag htne, rawAgniText_of_ok hag]
  have hmapA : newA.map (fun d => ((d.iteration : Nat), d.agni_output, d.score)) =
      (newA.map (fun d => d.iteration)).map
        (fun j => (j, rawAgniText A j, A.score (rawAgniText A j))) := by
    refine map_eq_of_iteration _ newA _ _ ?_
    intro d hd
    obtain ⟨hag, hsc⟩ := hmemA d hd
    rw [rawAgniText_of_ok hag, hsc]
  have hmapL : newL.map (fun d => ((d.iteration : Nat), d.agni_output, d.score)) =
      (newL.map (fun d => d.iteration)).map
        (fun j => (j, rawAgniText A j, A.score (rawAgniText A j))) := by
    refine map_eq_of_iteration _ newL _ _ ?_
    intro d hd
    obtain ⟨hout, hsc, hss⟩ := h4 d hd
    rw [hss, hsc, hout, hrawL]
  have hmap2A : newA.map (fun d => (d.score, d.agni_output)) =
      (newA.map (fun d => d.iteration)).map
        (fun j => (A.score (rawAgniText A j), rawAgniText A j)) := by
    refine map_eq_of_iteration _ newA _ _ ?_
    intro d hd
    obtain ⟨hag, hsc⟩ := hmemA d hd
    rw [rawAgniText_of_ok hag, hsc]
  have hmap2L : newL.map (fun d => (d.agni_score, d.agni_output)) =
      (newL.map (fun d => d.iteration)).map
        (fun j => (A.score (rawAgniText A j), rawAgniText A j)) := by
    refine map_eq_of_iteration _ newL _ _ ?_
    intro d hd
    obtain ⟨hout, hsc, _⟩ := h4 d hd
    rw [hsc, hout, hrawL]
  have hsame : newA.map (fun d => d.iteration) = newL.map (fun d => d.iteration) := by
    rw [hrangeA, h3, hlenA, hlenL]
  have hfoldEq : (bF, sF) =
      ((liveLoop A cfg.min_improvement cfg.max_iterations 1 [] 0 none).best_score,
       (liveLoop A cfg.min_improvement cfg.max_iterations 1 [] 0 none).best_solution) := by
    rw [hfoldA, h2, hmap2A, hmap2L, hsame]
  have hbF : bF =
      (liveLoop A cfg.min_improvement cfg.max_iterations 1 [] 0 none).best_score :=
    congrArg Prod.fst hfoldEq
  have hsF : sF =
      (liveLoop A cfg.min_improvement cfg.max_iterations 1 [] 0 none).best_solution :=
    congrArg Prod.snd hfoldEq
  have hrun := liveRun_of_none A cfg herr
  refine ⟨_, _, hproc, ?_, ?_, ?_, ?_, ?_, ?_⟩
  · rw [liveRun_history, hhist]
    simp [hlenA, hlenL]
  · rw [liveRun_final_score]
    exact hbF
  · rw [liveRun_final_solution]
    exact hsF
  · rw [liveRun_history, hhist]
    simpa using hmapA.trans (by rw [hsame, ← hmapL])
  · rw [hrun]
    simp only []
    rw [hbF, hsF]
  · rw [hrun]
    simp only []
    rw [List.getLast?_concat]

theorem C4_modes_agree_witness :
    TotalAdapters adaptersConst ∧ cfgC4.min_improvement ≤ 0 ∧
    (∀ i, 1 ≤ i → aggScoreAt adaptersConst i ≤ aggScoreAt adaptersConst (i+1)) ∧
    (∃ res stores,
      orchestratorProcess adaptersConst cfgC4.task cfgC4.max_iterations
        cfgC4.min_improvement = .ok (res, stores) ∧
      res.total_iterations = (liveRun adaptersConst cfgC4).history.length ∧
      res.final_score = (liveRun adaptersConst cfgC4).final_score ∧
      res.final_solution = (liveRun adaptersConst cfgC4).final_solution ∧
      res.iterations.map (fun d => (d.iteration, d.agni_output, d.score)) =
        (liveRun adaptersConst cfgC4).history.map
          (fun d => (d.iteration, d.agni_output, d.score)) ∧
      stores = (liveRun adaptersConst cfgC4).stores ∧
      (liveRun adaptersConst cfgC4).events.getLast? = some (Event.endEv cfgC4.task
        (liveRun adaptersConst cfgC4).final_solution
        (liveRun adaptersConst cfgC4).final_score
        (liveRun adaptersConst cfgC4).history
        (liveRun adaptersConst cfgC4).history.length cfgC4.use_rag)) := by
  have hT : TotalAdapters adaptersConst := by
    intro i
    exact ⟨⟨["g"], rfl⟩, ⟨"c", rfl⟩, ⟨"s", rfl, by simp⟩⟩
  have hI : cfgC4.min_improvement ≤ 0 := by norm_num [cfgC4]
  have hM : ∀ i, 1 ≤ i → aggScoreAt adaptersConst i ≤ aggScoreAt adaptersConst (i+1) := by
    intro i _
    simp [aggScoreAt, rawAgniText, adaptersConst]
  exact ⟨hT, hI, hM, C4_modes_agree adaptersConst cfgC4 hT hI hM⟩

end Chakra
